import Mathlib

/-!
Verification of the reconciliation and persistence core of the
actualizador_fondos fund-price updater.

Embedded components (shallow embedding, translated from the Python source):

* `merge_updates`, `max_existing_date` — src/app.py lines 112-129;
* incremental fetch-range selection — src/app.py lines 150-152 and 198-203;
* `read_prices_json`, `write_prices_json_if_changed` — src/portfolio.py;
* `json_dumps_canonical` — src/utils.py line 77-78 (JSON rendering with
  sorted keys, indent 2, trailing newline), together with a model of
  Python's `json.loads`;
* `cleanup_removed_funds`, `save_metadata_if_changed` and the run-level
  control flow of `main` — src/app.py;
* `load_funds_csv` — src/config.py.

Modelling conventions: Python dicts are insertion-ordered association
lists; floats are rationals (the merge and persistence logic performs no
floating-point arithmetic, and every finite float is a decimal rational);
the file system is explicit optional file contents threaded through the
functions; calendar dates are civil day numbers.
-/

/-- Python dict with string keys and float values: an association list kept in
insertion order. Real Python dicts have unique keys; the operations below
preserve key uniqueness whenever it holds for their input. -/
abbrev PyDict := List (String × ℚ)

/-- Python assignment `m[k] = v`: overwrite the binding in place if the key
exists, otherwise append the new binding at the end (insertion order). -/
def dictSet (m : PyDict) (k : String) (v : ℚ) : PyDict :=
  if m.any (fun p => p.1 == k) then
    m.map (fun p => if p.1 = k then (k, v) else p)
  else
    m ++ [(k, v)]

/-- Python lookup `m.get(k)` (first binding wins; unique keys in real dicts). -/
def dictGet (m : PyDict) (k : String) : Option ℚ :=
  (m.find? (fun p => p.1 == k)).map (fun p => p.2)

/-- Python `list(m.keys())`. -/
def dictKeys (m : PyDict) : List String := m.map (fun p => p.1)

/-- Python dict equality `==`: the same key-to-value mapping, with insertion
order ignored. -/
def dictEq (a b : PyDict) : Prop := ∀ k, dictGet a k = dictGet b k

/-- Boolean test deciding `dictEq` (used to evaluate concrete instances). -/
def dictEqb (a b : PyDict) : Bool :=
  (dictKeys a).all (fun k => dictGet a k == dictGet b k) &&
  (dictKeys b).all (fun k => dictGet a k == dictGet b k)

/-- merge_updates (src/app.py lines 112-120): start from a copy of
`existing`; for each source in order and each `(date, price)` pair in list
order, set `out[date] = price`. -/
def merge_updates (existing : PyDict) (sources : List (List (String × ℚ))) : PyDict :=
  sources.foldl (fun out source => source.foldl (fun o dc => dictSet o dc.1 dc.2) out) existing

/-- Applying a flat sequence of `(date, price)` assignments in order. -/
def applyObs (m : PyDict) (obs : List (String × ℚ)) : PyDict :=
  obs.foldl (fun o dc => dictSet o dc.1 dc.2) m

/-- All observations of all sources, concatenated in application order. -/
def concatSources (sources : List (List (String × ℚ))) : List (String × ℚ) :=
  sources.foldr (fun s acc => s ++ acc) []

/-- Value of the last observation for key `k` in a flat observation list. -/
def lastVal (obs : List (String × ℚ)) (k : String) : Option ℚ :=
  match obs with
  | [] => none
  | p :: rest =>
    match lastVal rest k with
    | some v => some v
    | none => if p.1 = k then some p.2 else none

/-- Digit test (code points 48-57). -/
def isDigitChar (c : Char) : Bool := 48 ≤ c.toNat && c.toNat ≤ 57

/-- Characters that json.dumps emits unescaped and the string parser reads
back verbatim: not a control character, not a quote, not a backslash. -/
def strSafeChar (c : Char) : Bool := !(c.toNat < 32) && c.toNat != 34 && c.toNat != 92

/-- Numeric value of a digit character. -/
def digitVal (c : Char) : Nat := c.toNat - 48

/-- Leap-year rule of the Gregorian calendar as used by Python datetime. -/
def isLeap (y : Nat) : Bool := y % 4 == 0 && (y % 100 != 0 || y % 400 == 0)

/-- Number of days in a month, as validated by Python datetime. -/
def daysInMonth (y m : Nat) : Nat :=
  if m = 2 then (if isLeap y then 29 else 28)
  else if m = 4 ∨ m = 6 ∨ m = 9 ∨ m = 11 then 30
  else 31

/-- Civil day number (days since 0000-03-01) of a Gregorian date, strictly
monotone in the date, so a faithful carrier for Python date comparison,
max and timedelta arithmetic. -/
def daysFromCivil (y m d : Nat) : ℤ :=
  let yy := if m ≤ 2 then y - 1 else y
  let era := yy / 400
  let yoe := yy % 400
  let mp := if 2 < m then m - 3 else m + 9
  let doy := (153 * mp + 2) / 5 + (d - 1)
  let doe := yoe * 365 + yoe / 4 - yoe / 100 + doy
  ((era * 146097 + doe : Nat) : ℤ)

/-- Calendar validation performed by datetime.date: year at least 1, month
1..12, day within the month. -/
def mkDate (y m d : Nat) : Option ℤ :=
  if 1 ≤ y ∧ 1 ≤ m ∧ m ≤ 12 ∧ 1 ≤ d ∧ d ≤ daysInMonth y m then
    some (daysFromCivil y m d)
  else none

/-- Model of datetime.strptime(s, "%Y-%m-%d").date() as used in src/app.py
line 127: exactly four year digits, one or two month digits, one or two day
digits, the whole string consumed, then calendar validation. Returns the
civil day number. -/
def parseDateISO (s : String) : Option ℤ :=
  match s.data with
  | [y1, y2, y3, y4, '-', m1, '-', d1] =>
    if isDigitChar y1 && isDigitChar y2 && isDigitChar y3 && isDigitChar y4 &&
       isDigitChar m1 && isDigitChar d1 then
      mkDate (digitVal y1 * 1000 + digitVal y2 * 100 + digitVal y3 * 10 + digitVal y4)
        (digitVal m1) (digitVal d1)
    else none
  | [y1, y2, y3, y4, '-', m1, '-', d1, d2] =>
    if isDigitChar y1 && isDigitChar y2 && isDigitChar y3 && isDigitChar y4 &&
       isDigitChar m1 && isDigitChar d1 && isDigitChar d2 then
      mkDate (digitVal y1 * 1000 + digitVal y2 * 100 + digitVal y3 * 10 + digitVal y4)
        (digitVal m1) (digitVal d1 * 10 + digitVal d2)
    else none
  | [y1, y2, y3, y4, '-', m1, m2, '-', d1] =>
    if isDigitChar y1 && isDigitChar y2 && isDigitChar y3 && isDigitChar y4 &&
       isDigitChar m1 && isDigitChar m2 && isDigitChar d1 then
      mkDate (digitVal y1 * 1000 + digitVal y2 * 100 + digitVal y3 * 10 + digitVal y4)
        (digitVal m1 * 10 + digitVal m2) (digitVal d1)
    else none
  | [y1, y2, y3, y4, '-', m1, m2, '-', d1, d2] =>
    if isDigitChar y1 && isDigitChar y2 && isDigitChar y3 && isDigitChar y4 &&
       isDigitChar m1 && isDigitChar m2 && isDigitChar d1 && isDigitChar d2 then
      mkDate (digitVal y1 * 1000 + digitVal y2 * 100 + digitVal y3 * 10 + digitVal y4)
        (digitVal m1 * 10 + digitVal m2) (digitVal d1 * 10 + digitVal d2)
    else none
  | _ => none

/-- max_existing_date (src/app.py lines 123-129): None for an empty dict;
None as soon as any key fails strptime (the exception aborts the max and is
caught in the except branch); otherwise the maximum parsed date. -/
def max_existing_date (m : PyDict) : Option ℤ :=
  if m.isEmpty then none
  else if ((dictKeys m).map parseDateISO).all Option.isSome then
    some (((dictKeys m).filterMap parseDateISO).foldl max 0)
  else none

/-- Fixed minimum fetch date, date(2000, 1, 1) from src/app.py line 200. -/
def floor_date : ℤ := daysFromCivil 2000 1 1

/-- do_full (src/app.py line 198): full-refresh flag or empty existing series. -/
def run_do_full (full_refresh : Bool) (existing : PyDict) : Bool :=
  full_refresh || existing.isEmpty

/-- Fetch start date (src/app.py lines 199-203): None when doing a full
refresh or when no latest date is available, otherwise
max(date(2000,1,1), last - timedelta(days=lookback_days)). -/
def compute_start (full_refresh : Bool) (lookback_days : ℤ) (existing : PyDict) :
    Option ℤ :=
  match run_do_full full_refresh existing, max_existing_date existing with
  | false, some last => some (max floor_date (last - lookback_days))
  | _, _ => none

/-- LOOKBACK_DAYS (src/app.py line 151): int(os.getenv("LOOKBACK_DAYS", "14")).
The environment value is modelled already parsed; the default is 14. -/
def lookback_days_env (env : Option ℤ) : ℤ := env.getD 14

/-- Python str.strip() default whitespace set. -/
def isPyWs (c : Char) : Bool :=
  c == ' ' || c == '\t' || c == '\n' || c == '\r' || c == '\x0b' || c == '\x0c'

/-- Python str.strip(). -/
def pyStrip (s : String) : String :=
  String.mk (((s.data.dropWhile isPyWs).reverse.dropWhile isPyWs).reverse)

/-- JSON values as produced by Python json.loads and consumed by json.dumps.
Numbers are rationals: every finite float is a (decimal) rational, and the
code does no arithmetic on prices. -/
inductive PyJson where
  | null
  | bool (b : Bool)
  | num (q : ℚ)
  | str (s : String)
  | arr (items : List PyJson)
  | obj (entries : List (String × PyJson))

/-- Bounded search for the least k with den dividing 10^k, starting at the
candidate k and spending the given fuel. -/
def decExpSearch : Nat → Nat → Nat → Nat
  | 0, _, k => k
  | fuel + 1, den, k => if 10 ^ k % den = 0 then k else decExpSearch fuel den (k + 1)

/-- Number of digits Python float repr prints after the decimal point for a
value with denominator den: the least k with den dividing 10^k (shortest
round-tripping decimal for a decimal value), and at least one digit
(10.0 prints as "10.0"). -/
def decExp (den : Nat) : Nat := decExpSearch den den 1

/-- Decimal digits of n, most significant first, fuel-structured so that the
kernel can evaluate it; fuel n+1 always suffices. -/
def natDigitsAuxF : Nat → Nat → List Char → List Char
  | 0, _, acc => acc
  | fuel + 1, n, acc =>
    if n < 10 then Char.ofNat (n + 48) :: acc
    else natDigitsAuxF fuel (n / 10) (Char.ofNat (n % 10 + 48) :: acc)

/-- Decimal rendering of a natural number. -/
def renderNat (n : Nat) : List Char := natDigitsAuxF (n + 1) n []

/-- Left-pad a digit string with zeros to width k. -/
def padZeros (k : Nat) (ds : List Char) : List Char :=
  List.replicate (k - ds.length) '0' ++ ds

/-- Python repr of a nonnegative float with a terminating decimal expansion:
integer part, point, exactly decExp den fractional digits. -/
def renderFloatAbs (q : ℚ) : List Char :=
  let k := decExp q.den
  let scaled := q.num.natAbs * 10 ^ k / q.den
  renderNat (scaled / 10 ^ k) ++ '.' :: padZeros k (renderNat (scaled % 10 ^ k))

/-- Python repr of a float (json.dumps number rendering). -/
def renderFloat (q : ℚ) : List Char :=
  if q < 0 then '-' :: renderFloatAbs (-q) else renderFloatAbs q

/-- The denominator divides a power of ten: exactly the rationals that are
exact values of finite binary floats (every dyadic is decimal). -/
def isDecimalB (q : ℚ) : Bool := 10 ^ decExp q.den % q.den == 0

/-- Lower-case hex digit. -/
def hexDigitChar (n : Nat) : Char :=
  if n < 10 then Char.ofNat (n + 48) else Char.ofNat (n + 87)

/-- json.dumps character escaping with ensure_ascii=False: the two mandatory
escapes, the named control escapes, and u-escapes for other controls;
everything else is emitted raw. -/
def escChar (c : Char) : List Char :=
  if c = '"' then ['\\', '"']
  else if c = '\\' then ['\\', '\\']
  else if c = '\n' then ['\\', 'n']
  else if c = '\r' then ['\\', 'r']
  else if c = '\t' then ['\\', 't']
  else if c = '\x08' then ['\\', 'b']
  else if c = '\x0c' then ['\\', 'f']
  else if c.toNat < 32 then
    ['\\', 'u', '0', '0', hexDigitChar (c.toNat / 16), hexDigitChar (c.toNat % 16)]
  else [c]

/-- Escape a whole string body. -/
def escapeChars (cs : List Char) : List Char := cs.flatMap escChar

/-- Indentation. -/
def spacesN (n : Nat) : List Char := List.replicate n ' '

/-- Insert into a list sorted by the boolean comparator. -/
def insertLe {α : Type} (le : α → α → Bool) (x : α) : List α → List α
  | [] => [x]
  | y :: ys => if le x y then x :: y :: ys else y :: insertLe le x ys

/-- Insertion sort by a boolean comparator (model of Python sorted()). -/
def sortLe {α : Type} (le : α → α → Bool) : List α → List α
  | [] => []
  | x :: xs => insertLe le x (sortLe le xs)

/-- Lexicographic comparison of character lists by code point, the order
Python uses on strings. -/
def listCharLe : List Char → List Char → Bool
  | [], _ => true
  | _ :: _, [] => false
  | a :: as', b :: bs =>
    if a.toNat < b.toNat then true
    else if a.toNat = b.toNat then listCharLe as' bs else false

/-- Python string comparison. -/
def keyLe (a b : String) : Bool := listCharLe a.data b.data

/-- Join pre-rendered lines with ",\n", each prefixed by the indentation. -/
def joinRendered (ind : Nat) : List (List Char) → List Char
  | [] => []
  | [l] => spacesN ind ++ l
  | l :: l2 :: ls => spacesN ind ++ l ++ ',' :: '\n' :: joinRendered ind (l2 :: ls)

/-- One rendered object member: "key": value. -/
def memberLine (p : String × List Char) : List Char :=
  '"' :: escapeChars p.1.data ++ '"' :: ':' :: ' ' :: p.2

mutual
/-- json.dumps(obj, ensure_ascii=False, sort_keys=True, indent=2) from
src/utils.py line 78, as a character stream at the given indent level.
Object members are rendered first and then sorted by key, which matches
sort_keys because rendering a member does not depend on its position. -/
def renderJson (ind : Nat) : PyJson → List Char
  | .null => "null".data
  | .bool true => "true".data
  | .bool false => "false".data
  | .num q => renderFloat q
  | .str s => '"' :: escapeChars s.data ++ ['"']
  | .arr [] => ['[', ']']
  | .arr (x :: xs) =>
    '[' :: '\n' :: joinRendered (ind + 2) (renderListItems (ind + 2) (x :: xs)) ++
      '\n' :: (spacesN ind ++ [']'])
  | .obj [] => ['{', '}']
  | .obj (e :: es) =>
    '{' :: '\n' :: joinRendered (ind + 2)
        ((sortLe (fun a b => keyLe a.1 b.1)
          (renderMemberPairs (ind + 2) (e :: es))).map memberLine) ++
      '\n' :: (spacesN ind ++ ['}'])

/-- Render the items of an array. -/
def renderListItems (ind : Nat) : List PyJson → List (List Char)
  | [] => []
  | x :: xs => renderJson ind x :: renderListItems ind xs

/-- Render object member values, keeping the keys. -/
def renderMemberPairs (ind : Nat) : List (String × PyJson) → List (String × List Char)
  | [] => []
  | (k, v) :: es => (k, renderJson ind v) :: renderMemberPairs ind es
end

/-- json_dumps_canonical (src/utils.py lines 77-78): canonical dump plus a
trailing newline. -/
def jsonDumpsCanonical (j : PyJson) : String := String.mk (renderJson 0 j ++ ['\n'])

/-- The row list built by write_prices_json_if_changed (src/portfolio.py
line 35): one {date, close} object per date, dates sorted descending. -/
def pricesToJson (m : PyDict) : PyJson :=
  .arr ((sortLe (fun a b => keyLe b a) (dictKeys m)).map
    (fun d => .obj [("date", .str d), ("close", .num ((dictGet m d).getD 0))]))

/-- Canonical serialization of a price series. -/
def serializePrices (m : PyDict) : String := jsonDumpsCanonical (pricesToJson m)

/-- write_prices_json_if_changed (src/portfolio.py lines 30-43): serialize,
compare with the currently stored text, write only on difference. The file
system is modelled by the optional old contents and the returned contents. -/
def write_prices_json_if_changed (old : Option String) (m : PyDict) : Bool × String :=
  let t := serializePrices m
  if old = some t then (false, t) else (true, t)

/-- save_metadata_if_changed (src/app.py lines 72-79): same change-gated
write for the metadata document (a JSON object at the root). -/
def save_metadata_if_changed (old : Option String) (meta : List (String × PyJson)) :
    Bool × String :=
  let t := jsonDumpsCanonical (.obj meta)
  if old = some t then (false, t) else (true, t)

/-- JSON whitespace. -/
def isJsonWs (c : Char) : Bool := c == ' ' || c == '\t' || c == '\n' || c == '\r'

/-- Skip leading JSON whitespace. -/
def skipWs (s : List Char) : List Char := s.dropWhile isJsonWs

/-- Consume leading digits, accumulating value and count. -/
def parseDigitsCntAcc : Nat → Nat → List Char → Nat × Nat × List Char
  | v, n, c :: rest =>
    if isDigitChar c then parseDigitsCntAcc (v * 10 + digitVal c) (n + 1) rest
    else (v, n, c :: rest)
  | v, n, [] => (v, n, [])

/-- Parse an unsigned JSON number: digits, optionally a point and more
digits (exponents are not emitted by the canonical renderer and are not
modelled). -/
def parseNumAbs (s : List Char) : Option (ℚ × List Char) :=
  if (parseDigitsCntAcc 0 0 s).2.1 = 0 then none
  else
    match (parseDigitsCntAcc 0 0 s).2.2 with
    | '.' :: r2 =>
      if (parseDigitsCntAcc 0 0 r2).2.1 = 0 then none
      else some (((parseDigitsCntAcc 0 0 s).1 : ℚ) +
        ((parseDigitsCntAcc 0 0 r2).1 : ℚ) / 10 ^ (parseDigitsCntAcc 0 0 r2).2.1,
        (parseDigitsCntAcc 0 0 r2).2.2)
    | _ => some (((parseDigitsCntAcc 0 0 s).1 : ℚ), (parseDigitsCntAcc 0 0 s).2.2)

/-- Hexadecimal digit value. -/
def hexVal (c : Char) : Option Nat :=
  if '0' ≤ c ∧ c ≤ '9' then some (c.toNat - 48)
  else if 'a' ≤ c ∧ c ≤ 'f' then some (c.toNat - 87)
  else if 'A' ≤ c ∧ c ≤ 'F' then some (c.toNat - 55)
  else none

/-- Parse a JSON string body after the opening quote, handling escapes,
returning the characters and the input after the closing quote. -/
def parseStrBody : List Char → Option (List Char × List Char)
  | [] => none
  | c :: rest =>
    if c = '"' then some ([], rest)
    else if c = '\\' then
      match rest with
      | [] => none
      | e :: r =>
        if e = 'n' then (parseStrBody r).map (fun p => ('\n' :: p.1, p.2))
        else if e = 't' then (parseStrBody r).map (fun p => ('\t' :: p.1, p.2))
        else if e = 'r' then (parseStrBody r).map (fun p => ('\r' :: p.1, p.2))
        else if e = 'b' then (parseStrBody r).map (fun p => ('\x08' :: p.1, p.2))
        else if e = 'f' then (parseStrBody r).map (fun p => ('\x0c' :: p.1, p.2))
        else if e = '/' then (parseStrBody r).map (fun p => ('/' :: p.1, p.2))
        else if e = '"' then (parseStrBody r).map (fun p => ('"' :: p.1, p.2))
        else if e = '\\' then (parseStrBody r).map (fun p => ('\\' :: p.1, p.2))
        else if e = 'u' then
          match r with
          | h1 :: h2 :: h3 :: h4 :: r2 =>
            match hexVal h1, hexVal h2, hexVal h3, hexVal h4 with
            | some a, some b, some hc, some d =>
              (parseStrBody r2).map
                (fun p => (Char.ofNat (((a * 16 + b) * 16 + hc) * 16 + d) :: p.1, p.2))
            | _, _, _, _ => none
          | _ => none
        else none
    else (parseStrBody rest).map (fun p => (c :: p.1, p.2))

mutual
/-- Parse one JSON value (model of the recursive descent inside json.loads),
with fuel decreasing on every nested call. -/
def parseVal : Nat → List Char → Option (PyJson × List Char)
  | 0, _ => none
  | fuel + 1, s =>
    match skipWs s with
    | [] => none
    | c :: rest =>
      if c = 'n' then
        match rest with
        | 'u' :: 'l' :: 'l' :: r => some (.null, r)
        | _ => none
      else if c = 't' then
        match rest with
        | 'r' :: 'u' :: 'e' :: r => some (.bool true, r)
        | _ => none
      else if c = 'f' then
        match rest with
        | 'a' :: 'l' :: 's' :: 'e' :: r => some (.bool false, r)
        | _ => none
      else if c = '"' then
        (parseStrBody rest).map (fun p => (.str (String.mk p.1), p.2))
      else if c = '[' then
        match skipWs rest with
        | ']' :: r2 => some (.arr [], r2)
        | _ => parseItems fuel rest []
      else if c = '{' then
        match skipWs rest with
        | '}' :: r2 => some (.obj [], r2)
        | _ => parseMembers fuel rest []
      else if c = '-' then
        (parseNumAbs rest).map (fun p => (.num (-p.1), p.2))
      else if isDigitChar c then
        (parseNumAbs (c :: rest)).map (fun p => (.num p.1, p.2))
      else none

/-- Parse the remaining items of a non-empty array. -/
def parseItems : Nat → List Char → List PyJson → Option (PyJson × List Char)
  | 0, _, _ => none
  | fuel + 1, s, acc =>
    match parseVal fuel s with
    | none => none
    | some (v, rest) =>
      match skipWs rest with
      | ',' :: r2 => parseItems fuel r2 (v :: acc)
      | ']' :: r2 => some (.arr (v :: acc).reverse, r2)
      | _ => none

/-- Parse the remaining members of a non-empty object. -/
def parseMembers : Nat → List Char → List (String × PyJson) →
    Option (PyJson × List Char)
  | 0, _, _ => none
  | fuel + 1, s, acc =>
    match skipWs s with
    | '"' :: rest =>
      match parseStrBody rest with
      | none => none
      | some (key, r1) =>
        match skipWs r1 with
        | ':' :: r2 =>
          match parseVal fuel r2 with
          | none => none
          | some (v, r3) =>
            match skipWs r3 with
            | ',' :: r4 => parseMembers fuel r4 ((String.mk key, v) :: acc)
            | '}' :: r4 => some (.obj ((String.mk key, v) :: acc).reverse, r4)
            | _ => none
        | _ => none
    | _ => none
end

/-- Model of json.loads: parse one value, accept only trailing whitespace.
The fuel is generous for any input the canonical renderer produces. -/
def pyJsonParse (s : String) : Option PyJson :=
  match parseVal (s.data.length + 4) s.data with
  | some (j, rest) => if skipWs rest = [] then some j else none
  | none => none

/-- Python float(c) for a value passing isinstance(c, (int, float)): JSON
numbers, and booleans, since bool is a subclass of int (True becomes 1.0). -/
def pyFloatOfJson : PyJson → Option ℚ
  | .num q => some q
  | .bool b => some (if b then 1 else 0)
  | _ => none

/-- dict.get on a parsed JSON object: json.loads keeps the last occurrence
of a duplicated key. -/
def jsonObjGet (entries : List (String × PyJson)) (k : String) : Option PyJson :=
  (entries.reverse.find? (fun p => p.1 == k)).map (fun p => p.2)

/-- One loop iteration of read_prices_json (src/portfolio.py lines 19-23):
none models the AttributeError of row.get on a non-dict row (which aborts
the whole read); some none a skipped row; some (some kv) a kept row. -/
def extractRow (j : PyJson) : Option (Option (String × ℚ)) :=
  match j with
  | .obj entries =>
    match jsonObjGet entries "date", jsonObjGet entries "close" with
    | some (.str d), some c =>
      match pyFloatOfJson c with
      | some q => some (some (d, q))
      | none => some none
    | _, _ => some none
  | _ => none

/-- The row loop of read_prices_json: an exception on any row discards
everything (the except branch returns the empty dict). -/
def extractRows : List PyJson → PyDict → PyDict
  | [], acc => acc
  | j :: rest, acc =>
    match extractRow j with
    | none => []
    | some none => extractRows rest acc
    | some (some (d, q)) => extractRows rest (dictSet acc d q)

/-- Shape handling of read_prices_json on the parsed document: iterating a
non-list (or hitting a non-dict row) raises inside the try and yields {}. -/
def extractPrices : PyJson → PyDict
  | .arr items => extractRows items []
  | _ => []

/-- read_prices_json (src/portfolio.py lines 13-27) with the file contents
made explicit: absent file, unparseable JSON or a shape error all give the
empty dict; well-shaped rows accumulate with out[date] = float(close). -/
def read_prices_json (contents : Option String) : PyDict :=
  match contents with
  | none => []
  | some s =>
    match pyJsonParse s with
    | none => []
    | some j => extractPrices j

/-- Digit-string value, used to state parser-printer inversion. -/
def dval (v : Nat) (ds : List Char) : Nat :=
  ds.foldl (fun a c => a * 10 + digitVal c) v

/-- Text of a rendered price row after the date value's opening quote:
the escaped date, closing quote, newline, closing brace, then the rest. -/
def rowTailD (d : String) (rest : List Char) : List Char :=
  escapeChars d.data ++ ('"' :: '\n' :: ' ' :: ' ' :: '}' :: rest)

/-- Text of a rendered price row from its close value onwards. -/
def rowTailC (d : String) (q : ℚ) (rest : List Char) : List Char :=
  renderFloat q ++ (',' :: '\n' :: ' ' :: ' ' :: ' ' :: ' ' :: '"' :: 'd' :: 'a' ::
    't' :: 'e' :: '"' :: ':' :: ' ' :: '"' :: rowTailD d rest)

/-- Text of a rendered price row after its opening brace. -/
def rowTailB (d : String) (q : ℚ) (rest : List Char) : List Char :=
  '\n' :: ' ' :: ' ' :: ' ' :: ' ' :: '"' :: 'c' :: 'l' :: 'o' :: 's' :: 'e' ::
    '"' :: ':' :: ' ' :: rowTailC d q rest
/-- State touched by cleanup_removed_funds: the *.json files of PRICES_DIR
keyed by file stem, and the "funds" map of the metadata document. -/
structure StoreState where
  priceFiles : List (String × String)
  fundsMeta : List (String × PyJson)

/-- Deletion test of the file loop (src/app.py lines 88-90): the stripped
stem is nonempty and not among the active isins. -/
def fileDeleted (active : List String) (stem : String) : Bool :=
  pyStrip stem != "" && !(active.contains (pyStrip stem))

/-- cleanup_removed_funds (src/app.py lines 84-107): unlink every price file
whose stripped stem is a non-active isin, pop every funds-metadata key not
in active, and report whether anything was deleted. -/
def cleanup_removed_funds (active : List String) (st : StoreState) :
    Bool × StoreState :=
  let filesChanged := st.priceFiles.any (fun p => fileDeleted active p.1)
  let keptFiles := st.priceFiles.filter (fun p => !fileDeleted active p.1)
  let metaChanged := st.fundsMeta.any (fun e => !(active.contains e.1))
  let keptMeta := st.fundsMeta.filter (fun e => active.contains e.1)
  (filesChanged || metaChanged, ⟨keptFiles, keptMeta⟩)

theorem dictGet_cons (p : String × ℚ) (rest : PyDict) (k : String) :
    dictGet (p :: rest) k = if p.1 = k then some p.2 else dictGet rest k := by
  by_cases h : p.1 = k
  · simp [dictGet, List.find?_cons_of_pos, h]
  · simp [dictGet, List.find?_cons_of_neg, h]

theorem dictGet_eq_none_of_not_mem (m : PyDict) (k : String)
    (h : k ∉ dictKeys m) : dictGet m k = none := by
  induction m with
  | nil => rfl
  | cons p rest ih =>
    simp only [dictKeys, List.map_cons, List.mem_cons, not_or] at h
    rw [dictGet_cons, if_neg (fun hh => h.1 hh.symm)]
    exact ih h.2

theorem mem_dictKeys_of_dictGet_some (m : PyDict) (k : String)
    (h : dictGet m k ≠ none) : k ∈ dictKeys m := by
  by_contra hmem
  exact h (dictGet_eq_none_of_not_mem m k hmem)

theorem dictGet_map_overwrite (m : PyDict) (k k' : String) (v : ℚ) :
    dictGet (m.map (fun p => if p.1 = k then (k, v) else p)) k' =
      if k' = k then (if m.any (fun p => p.1 == k) then some v else none)
      else dictGet m k' := by
  induction m with
  | nil => by_cases h : k' = k <;> simp [dictGet, h]
  | cons p rest ih =>
    rw [List.map_cons]
    by_cases hp : p.1 = k
    · have hb : (p.1 == k) = true := beq_iff_eq.mpr hp
      rw [if_pos hp, dictGet_cons]
      by_cases hk : k' = k
      · subst hk
        rw [if_pos rfl, if_pos rfl, List.any_cons, hb, Bool.true_or, if_pos rfl]
      · rw [if_neg (fun hh => hk hh.symm), ih, if_neg hk, if_neg hk, dictGet_cons,
          if_neg (fun hh => hk (hh.symm.trans hp))]
    · have hb : (p.1 == k) = false := by simpa using hp
      rw [if_neg hp, dictGet_cons]
      by_cases hpk : p.1 = k'
      · have hk : ¬k' = k := fun hh => hp (hpk.trans hh)
        rw [if_pos hpk, if_neg hk, dictGet_cons, if_pos hpk]
      · rw [if_neg hpk, ih, dictGet_cons, if_neg hpk, List.any_cons, hb, Bool.false_or]

theorem dictGet_append_single (m : PyDict) (k k' : String) (v : ℚ) :
    dictGet (m ++ [(k, v)]) k' =
      match dictGet m k' with
      | some w => some w
      | none => if k = k' then some v else none := by
  induction m with
  | nil =>
    show dictGet [(k, v)] k' = _
    rw [dictGet_cons]
    rfl
  | cons p rest ih =>
    rw [List.cons_append, dictGet_cons, dictGet_cons]
    by_cases h : p.1 = k' <;> simp [h, ih]

theorem dictGet_dictSet (m : PyDict) (k k' : String) (v : ℚ) :
    dictGet (dictSet m k v) k' = if k' = k then some v else dictGet m k' := by
  unfold dictSet
  by_cases hany : m.any (fun p => p.1 == k)
  · rw [if_pos hany, dictGet_map_overwrite, hany]
    by_cases hk : k' = k <;> simp [hk]
  · rw [if_neg hany, dictGet_append_single]
    have hnone : dictGet m k = none := by
      refine dictGet_eq_none_of_not_mem m k ?_
      intro hmem
      apply hany
      simp only [dictKeys, List.mem_map] at hmem
      obtain ⟨p, hp, hpk⟩ := hmem
      exact List.any_eq_true.mpr ⟨p, hp, by simp [hpk]⟩
    rcases hfind : dictGet m k' with _ | w
    · by_cases hk : k' = k
      · rw [if_pos hk, if_pos hk.symm]
      · rw [if_neg hk, if_neg (fun hh => hk hh.symm)]
    · have hk : ¬k' = k := by
        intro hh
        rw [hh, hnone] at hfind
        exact Option.noConfusion hfind
      rw [if_neg hk]

theorem dictGet_applyObs (obs : List (String × ℚ)) (m : PyDict) (k : String) :
    dictGet (applyObs m obs) k =
      match lastVal obs k with
      | some v => some v
      | none => dictGet m k := by
  induction obs generalizing m with
  | nil => rfl
  | cons p rest ih =>
    show dictGet (applyObs (dictSet m p.1 p.2) rest) k = _
    rw [ih]
    rcases hl : lastVal rest k with _ | v
    · simp only [lastVal, hl]
      by_cases hp : p.1 = k
      · rw [if_pos hp, dictGet_dictSet, if_pos hp.symm]
      · rw [if_neg hp, dictGet_dictSet, if_neg (fun hh => hp hh.symm)]
    · simp only [lastVal, hl]

theorem applyObs_append (m : PyDict) (a b : List (String × ℚ)) :
    applyObs m (a ++ b) = applyObs (applyObs m a) b := by
  unfold applyObs
  rw [List.foldl_append]

theorem merge_updates_eq_applyObs (E : PyDict) (srcs : List (List (String × ℚ))) :
    merge_updates E srcs = applyObs E (concatSources srcs) := by
  induction srcs generalizing E with
  | nil => rfl
  | cons s rest ih =>
    show merge_updates (applyObs E s) rest = _
    rw [ih]
    have hc : concatSources (s :: rest) = s ++ concatSources rest := rfl
    rw [hc, applyObs_append]

theorem dictEqb_iff (a b : PyDict) : dictEqb a b = true ↔ dictEq a b := by
  constructor
  · intro h k
    rw [dictEqb, Bool.and_eq_true, List.all_eq_true, List.all_eq_true] at h
    by_cases ha : k ∈ dictKeys a
    · exact beq_iff_eq.mp (h.1 k ha)
    · by_cases hb : k ∈ dictKeys b
      · exact beq_iff_eq.mp (h.2 k hb)
      · rw [dictGet_eq_none_of_not_mem a k ha, dictGet_eq_none_of_not_mem b k hb]
  · intro h
    rw [dictEqb, Bool.and_eq_true, List.all_eq_true, List.all_eq_true]
    exact ⟨fun k _ => beq_iff_eq.mpr (h k), fun k _ => beq_iff_eq.mpr (h k)⟩

/-- C1: merge_updates equals sequential last-writer-wins application of every
observation of every source, in argument order, starting from the existing
map; empty sources are a no-op (the existing history is never cleared); on a
date supplied by two sources the later source wins in either order; and the
concrete scenario merge({"2024-01-01": 10.0}, [("2024-01-02", 11.0)],
[("2024-01-01", 10.5)]) evaluates to {"2024-01-01": 10.5, "2024-01-02": 11.0}. -/
theorem merge_updates_semantics :
    (∀ E srcs, merge_updates E srcs = applyObs E (concatSources srcs))
  ∧ (∀ E, dictEq (merge_updates E [[], []]) E)
  ∧ (∀ E d p1 p2,
      dictGet (merge_updates E [[(d, p1)], [(d, p2)]]) d = some p2 ∧
      dictGet (merge_updates E [[(d, p2)], [(d, p1)]]) d = some p1)
  ∧ dictEq
      (merge_updates [("2024-01-01", 10)]
        [[("2024-01-02", 11)], [("2024-01-01", 21/2)]])
      [("2024-01-01", 21/2), ("2024-01-02", 11)] := by
  refine ⟨merge_updates_eq_applyObs, ?_, ?_, ?_⟩
  · intro E k
    rfl
  · intro E d p1 p2
    constructor
    · have h : merge_updates E [[(d, p1)], [(d, p2)]] = dictSet (dictSet E d p1) d p2 := rfl
      rw [h, dictGet_dictSet, if_pos rfl]
    · have h : merge_updates E [[(d, p2)], [(d, p1)]] = dictSet (dictSet E d p2) d p1 := rfl
      rw [h, dictGet_dictSet, if_pos rfl]
  · intro k
    have hA : merge_updates [("2024-01-01", 10)]
        [[("2024-01-02", 11)], [("2024-01-01", 21/2)]]
        = dictSet (dictSet [("2024-01-01", 10)] "2024-01-02" 11)
            "2024-01-01" (21/2) := rfl
    by_cases h1 : k = "2024-01-01"
    · have h1s : ("2024-01-01" : String) = k := h1.symm
      simp [hA, dictGet_dictSet, dictGet_cons, h1]
    · have h1s : ¬("2024-01-01" : String) = k := fun hh => h1 hh.symm
      by_cases h2 : k = "2024-01-02"
      · simp [hA, dictGet_dictSet, dictGet_cons, h2, h1, h1s]
      · have h2s : ¬("2024-01-02" : String) = k := fun hh => h2 hh.symm
        simp [hA, dictGet_dictSet, dictGet_cons, h1, h1s, h2, h2s]

/-- C3: re-applying the same source data is a no-op:
merge(merge(E, S), S) == merge(E, S). -/
theorem merge_updates_idempotent (E : PyDict) (S : List (String × ℚ)) :
    dictEq (merge_updates (merge_updates E [S]) [S]) (merge_updates E [S]) := by
  intro k
  have h1 : merge_updates E [S] = applyObs E S := rfl
  have h2 : merge_updates (applyObs E S) [S] = applyObs (applyObs E S) S := rfl
  rw [h1, h2, dictGet_applyObs]
  rcases hl : lastVal S k with _ | v
  · simp only [hl]
  · simp only [hl, dictGet_applyObs]

/-- C9 counterexample: merge_updates raises no typed validation error on
malformed input; the observation ("not-a-date", 1), whose key is not a valid
ISO date (strptime rejects it), is silently incorporated into the result map
instead. -/
theorem merge_no_validation_counterexample :
    parseDateISO "not-a-date" = none
  ∧ dictGet (merge_updates [] [[("not-a-date", 1)]]) "not-a-date" = some 1 := by
  constructor
  · decide
  · decide

/-- C9 amended: the merge component performs no I/O and cannot fail — it is a
total function with no error outcome — but it also performs no validation:
every observation, malformed date key or not, is incorporated unconditionally. -/
theorem merge_accepts_any_observation (E : PyDict) (d : String) (c : ℚ) :
    dictGet (merge_updates E [[(d, c)]]) d = some c := by
  have h : merge_updates E [[(d, c)]] = dictSet E d c := rfl
  rw [h, dictGet_dictSet, if_pos rfl]

/-- C5: do_full holds exactly when the full-refresh flag is set or the
existing series is empty; when it holds the start date handed to adapters is
None (maximal history), in particular under the full-refresh flag with
non-empty history; otherwise, when every existing key parses as a date, the
start is max(2000-01-01, latest_existing - lookback_days); and the look-back
default is 14 days. -/
theorem incremental_range_selection (fr : Bool) (lb : ℤ) (E : PyDict)
    (hvalid : ((dictKeys E).map parseDateISO).all Option.isSome = true) :
    (run_do_full fr E = true ↔ (fr = true ∨ E.isEmpty = true))
  ∧ (run_do_full fr E = true → compute_start fr lb E = none)
  ∧ (run_do_full fr E = false →
      ∃ last, max_existing_date E = some last ∧
        compute_start fr lb E = some (max floor_date (last - lb)))
  ∧ (fr = true → compute_start fr lb E = none)
  ∧ lookback_days_env none = 14 := by
  refine ⟨by simp [run_do_full], ?_, ?_, ?_, rfl⟩
  · intro h
    unfold compute_start
    rw [h]
  · intro h
    have hne : E.isEmpty = false := by
      rcases Bool.or_eq_false_iff.mp h with ⟨_, h2⟩
      exact h2
    have hmax : max_existing_date E =
        some (((dictKeys E).filterMap parseDateISO).foldl max 0) := by
      unfold max_existing_date
      rw [if_neg (by rw [hne]; exact Bool.false_ne_true), if_pos hvalid]
    refine ⟨_, hmax, ?_⟩
    unfold compute_start
    rw [h, hmax]
  · intro h
    unfold compute_start run_do_full
    rw [h, Bool.true_or]

/-- Witness for incremental_range_selection at a concrete one-entry history. -/
theorem incremental_range_selection_witness :
    ((dictKeys [(("2024-01-01" : String), (10 : ℚ))]).map parseDateISO).all
      Option.isSome = true
  ∧ ((run_do_full false [("2024-01-01", 10)] = true ↔
        (false = true ∨ ([(("2024-01-01" : String), (10 : ℚ))]).isEmpty = true))
    ∧ (run_do_full false [("2024-01-01", 10)] = true →
        compute_start false 14 [("2024-01-01", 10)] = none)
    ∧ (run_do_full false [("2024-01-01", 10)] = false →
        ∃ last, max_existing_date [("2024-01-01", 10)] = some last ∧
          compute_start false 14 [("2024-01-01", 10)] =
            some (max floor_date (last - 14)))
    ∧ (false = true → compute_start false 14 [("2024-01-01", 10)] = none)
    ∧ lookback_days_env none = 14) :=
  ⟨by decide, incremental_range_selection false 14 [("2024-01-01", 10)] (by decide)⟩

/-- C2: change-gated persistence. write_prices_json_if_changed serializes the
map canonically (descending-date rows rendered by json_dumps_canonical),
performs no write and returns false exactly when the stored bytes already
equal that serialization, and otherwise stores exactly that serialization and
returns true; hence a second call on the result of a first call returns
false (at most one actual write). save_metadata_if_changed satisfies the same
contract on the metadata document. -/
theorem write_if_changed_gating :
    (∀ old m, (write_prices_json_if_changed old m).2 = serializePrices m
      ∧ ((write_prices_json_if_changed old m).1 = false ↔
          old = some (serializePrices m)))
  ∧ (∀ old m,
      (write_prices_json_if_changed
        (some (write_prices_json_if_changed old m).2) m).1 = false)
  ∧ (∀ old meta, (save_metadata_if_changed old meta).2 = jsonDumpsCanonical (.obj meta)
      ∧ ((save_metadata_if_changed old meta).1 = false ↔
          old = some (jsonDumpsCanonical (.obj meta))))
  ∧ (∀ old meta,
      (save_metadata_if_changed
        (some (save_metadata_if_changed old meta).2) meta).1 = false) := by
  refine ⟨?_, ?_, ?_, ?_⟩
  · intro old m
    unfold write_prices_json_if_changed
    by_cases h : old = some (serializePrices m) <;> simp [h]
  · intro old m
    unfold write_prices_json_if_changed
    by_cases h : old = some (serializePrices m) <;> simp [h]
  · intro old meta
    unfold save_metadata_if_changed
    by_cases h : old = some (jsonDumpsCanonical (.obj meta)) <;> simp [h]
  · intro old meta
    unfold save_metadata_if_changed
    by_cases h : old = some (jsonDumpsCanonical (.obj meta)) <;> simp [h]

/-- C10 counterexample: a row whose "close" is the JSON boolean true — not a
number — is not skipped by read_prices_json: Python's isinstance(c, int)
accepts booleans, so the row is kept with value float(True) = 1.0. -/
theorem read_prices_bool_close_counterexample :
    read_prices_json (some "[\x7b\"date\": \"2024-01-01\", \"close\": true\x7d]")
      = [("2024-01-01", 1)] := by
  decide

theorem digit_bounds (c : Char) (h : isDigitChar c = true) :
    48 ≤ c.toNat ∧ c.toNat ≤ 57 := by
  unfold isDigitChar at h
  rw [Bool.and_eq_true, decide_eq_true_eq, decide_eq_true_eq] at h
  exact h

theorem digit_char_spec (n : Nat) (h : n < 10) :
    isDigitChar (Char.ofNat (n + 48)) = true ∧ digitVal (Char.ofNat (n + 48)) = n := by
  interval_cases n <;> exact ⟨by decide, by decide⟩

theorem dval_append (v : Nat) (a b : List Char) :
    dval v (a ++ b) = dval (dval v a) b := by
  unfold dval
  rw [List.foldl_append]

theorem dval_zeros (z : Nat) (ds : List Char) :
    dval 0 (List.replicate z '0' ++ ds) = dval 0 ds := by
  induction z with
  | zero => rfl
  | succ n ih =>
    rw [List.replicate_succ, List.cons_append]
    have h : dval 0 ('0' :: (List.replicate n '0' ++ ds))
        = dval (0 * 10 + digitVal '0') (List.replicate n '0' ++ ds) := rfl
    have h0 : 0 * 10 + digitVal '0' = 0 := by decide
    rw [h, h0, ih]

theorem natDigitsAuxF_spec (fuel : Nat) :
    ∀ n acc, n < 10 ^ fuel → 0 < fuel →
      ∃ ds, natDigitsAuxF fuel n acc = ds ++ acc ∧ ds ≠ []
        ∧ (∀ c ∈ ds, isDigitChar c = true)
        ∧ dval 0 ds = n
        ∧ (ds.length = 1 ∨ 10 ^ (ds.length - 1) ≤ n) := by
  induction fuel with
  | zero => intro n acc _ h0; exact absurd h0 (by omega)
  | succ f ih =>
    intro n acc h _
    by_cases hn : n < 10
    · refine ⟨[Char.ofNat (n + 48)], ?_, by simp, ?_, ?_, Or.inl rfl⟩
      · show natDigitsAuxF (f + 1) n acc = _
        unfold natDigitsAuxF
        rw [if_pos hn]
        rfl
      · intro c hc
        rw [List.mem_singleton] at hc
        subst hc
        exact (digit_char_spec n hn).1
      · show dval 0 [Char.ofNat (n + 48)] = n
        unfold dval
        show 0 * 10 + digitVal (Char.ofNat (n + 48)) = n
        rw [(digit_char_spec n hn).2]
        omega
    · have h10 : 10 ≤ n := Nat.le_of_not_lt hn
      have hf : 0 < f := by
        by_contra hf0
        have : f = 0 := by omega
        subst this
        simp at h
        omega
      have hdiv : n / 10 < 10 ^ f := by
        rw [Nat.div_lt_iff_lt_mul (by norm_num)]
        calc n < 10 ^ (f + 1) := h
        _ = 10 ^ f * 10 := by ring
      obtain ⟨ds, hds, hne, hdig, hval, hlen⟩ :=
        ih (n / 10) (Char.ofNat (n % 10 + 48) :: acc) hdiv hf
      refine ⟨ds ++ [Char.ofNat (n % 10 + 48)], ?_, by simp, ?_, ?_, ?_⟩
      · show natDigitsAuxF (f + 1) n acc = _
        unfold natDigitsAuxF
        rw [if_neg hn, hds, List.append_assoc, List.singleton_append]
      · intro c hc
        rw [List.mem_append, List.mem_singleton] at hc
        rcases hc with hc | hc
        · exact hdig c hc
        · subst hc
          exact (digit_char_spec (n % 10) (Nat.mod_lt n (by norm_num))).1
      · rw [dval_append, hval]
        show dval (n / 10) [Char.ofNat (n % 10 + 48)] = n
        unfold dval
        show n / 10 * 10 + digitVal (Char.ofNat (n % 10 + 48)) = n
        rw [(digit_char_spec (n % 10) (Nat.mod_lt n (by norm_num))).2]
        omega
      · right
        rw [List.length_append, List.length_singleton]
        have hlen1 : 1 ≤ ds.length := by
          cases ds with
          | nil => exact absurd rfl hne
          | cons a l => simp
        have : ds.length + 1 - 1 = ds.length - 1 + 1 := by omega
        rw [this, pow_succ]
        rcases hlen with h1 | h1
        · rw [h1]
          simpa using h10
        · calc 10 ^ (ds.length - 1) * 10 ≤ n / 10 * 10 :=
                Nat.mul_le_mul_right 10 h1
          _ ≤ n := Nat.div_mul_le_self n 10

theorem renderNat_spec (n : Nat) :
    renderNat n ≠ [] ∧ (∀ c ∈ renderNat n, isDigitChar c = true)
      ∧ dval 0 (renderNat n) = n
      ∧ ((renderNat n).length = 1 ∨ 10 ^ ((renderNat n).length - 1) ≤ n) := by
  have hlt : n < 10 ^ (n + 1) := by
    calc n < 10 ^ n := Nat.lt_pow_self (by norm_num) n
    _ ≤ 10 ^ (n + 1) := Nat.pow_le_pow_right (by norm_num) (Nat.le_succ n)
  obtain ⟨ds, hds, hne, hdig, hval, hlen⟩ :=
    natDigitsAuxF_spec (n + 1) n [] hlt (Nat.succ_pos n)
  unfold renderNat
  rw [hds, List.append_nil]
  exact ⟨hne, hdig, hval, hlen⟩

theorem parseDigitsCntAcc_digits (ds : List Char) :
    ∀ v n rest, (∀ c ∈ ds, isDigitChar c = true) →
      parseDigitsCntAcc v n (ds ++ rest) =
        parseDigitsCntAcc (dval v ds) (n + ds.length) rest := by
  induction ds with
  | nil => intro v n rest _; rfl
  | cons c cs ih =>
    intro v n rest hall
    have hc : isDigitChar c = true := hall c (List.mem_cons_self c cs)
    have hstep : parseDigitsCntAcc v n (c :: (cs ++ rest)) =
        if isDigitChar c = true then
          parseDigitsCntAcc (v * 10 + digitVal c) (n + 1) (cs ++ rest)
        else (v, n, c :: (cs ++ rest)) := rfl
    rw [List.cons_append, hstep, if_pos hc,
      ih (v * 10 + digitVal c) (n + 1) rest
        (fun d hd => hall d (List.mem_cons_of_mem c hd))]
    have h1 : dval (v * 10 + digitVal c) cs = dval v (c :: cs) := rfl
    have h2 : n + 1 + cs.length = n + (c :: cs).length := by
      rw [List.length_cons]; omega
    rw [h1, h2]

theorem parseDigitsCntAcc_stop (v n : Nat) (rest : List Char)
    (h : ∀ c, rest.head? = some c → isDigitChar c = false) :
    parseDigitsCntAcc v n rest = (v, n, rest) := by
  cases rest with
  | nil => rfl
  | cons c cs =>
    unfold parseDigitsCntAcc
    rw [if_neg]
    rw [h c rfl]
    exact Bool.false_ne_true

theorem skipWs_append_ws (ws : List Char) (s : List Char)
    (h : ∀ c ∈ ws, isJsonWs c = true) : skipWs (ws ++ s) = skipWs s := by
  induction ws with
  | nil => rfl
  | cons c cs ih =>
    rw [List.cons_append]
    show (c :: (cs ++ s)).dropWhile isJsonWs = _
    rw [List.dropWhile_cons, h c (List.mem_cons_self c cs)]
    simp only [if_true]
    exact ih (fun d hd => h d (List.mem_cons_of_mem c hd))

theorem skipWs_not_ws (c : Char) (s : List Char) (h : isJsonWs c = false) :
    skipWs (c :: s) = c :: s := by
  show (c :: s).dropWhile isJsonWs = _
  rw [List.dropWhile_cons, h]
  simp

theorem isJsonWs_eq_false_of_ge (c : Char) (h : 33 ≤ c.toNat) :
    isJsonWs c = false := by
  unfold isJsonWs
  have h1 : (c == ' ') = false := by
    rw [beq_eq_false_iff_ne]
    intro hh; subst hh; exact absurd h (by decide)
  have h2 : (c == '\t') = false := by
    rw [beq_eq_false_iff_ne]
    intro hh; subst hh; exact absurd h (by decide)
  have h3 : (c == '\n') = false := by
    rw [beq_eq_false_iff_ne]
    intro hh; subst hh; exact absurd h (by decide)
  have h4 : (c == '\r') = false := by
    rw [beq_eq_false_iff_ne]
    intro hh; subst hh; exact absurd h (by decide)
  rw [h1, h2, h3, h4]
  rfl

theorem decExpSearch_ge (fuel : Nat) :
    ∀ den k, k ≤ decExpSearch fuel den k := by
  induction fuel with
  | zero => intro den k; exact Nat.le_refl k
  | succ f ih =>
    intro den k
    unfold decExpSearch
    by_cases h : 10 ^ k % den = 0
    · rw [if_pos h]
    · rw [if_neg h]
      exact Nat.le_trans (Nat.le_succ k) (ih den (k + 1))

theorem decExp_pos (den : Nat) : 1 ≤ decExp den := decExpSearch_ge den den 1

theorem padZeros_digits (k : Nat) (ds : List Char)
    (h : ∀ c ∈ ds, isDigitChar c = true) :
    ∀ c ∈ padZeros k ds, isDigitChar c = true := by
  intro c hc
  unfold padZeros at hc
  rw [List.mem_append] at hc
  rcases hc with hc | hc
  · rw [List.mem_replicate] at hc
    rw [hc.2]
    decide
  · exact h c hc

theorem padZeros_length (k : Nat) (ds : List Char) (h : ds.length ≤ k) :
    (padZeros k ds).length = k := by
  unfold padZeros
  rw [List.length_append, List.length_replicate]
  omega

theorem parseNumAbs_eq (s : List Char) (i il : Nat) (r2 : List Char)
    (f fl : Nat) (r3 : List Char)
    (h1 : parseDigitsCntAcc 0 0 s = (i, il, '.' :: r2))
    (hil : il ≠ 0)
    (h2 : parseDigitsCntAcc 0 0 r2 = (f, fl, r3))
    (hfl : fl ≠ 0) :
    parseNumAbs s = some ((i : ℚ) + (f : ℚ) / 10 ^ fl, r3) := by
  unfold parseNumAbs
  rw [h1]
  show (if il = 0 then none
    else if (parseDigitsCntAcc 0 0 r2).2.1 = 0 then none
    else some ((i : ℚ) + ((parseDigitsCntAcc 0 0 r2).1 : ℚ) /
        10 ^ (parseDigitsCntAcc 0 0 r2).2.1,
      (parseDigitsCntAcc 0 0 r2).2.2)) = some ((i : ℚ) + (f : ℚ) / 10 ^ fl, r3)
  rw [h2, if_neg hil]
  show (if fl = 0 then none else some ((i : ℚ) + (f : ℚ) / 10 ^ fl, r3)) = _
  rw [if_neg hfl]

theorem parseNumAbs_render (q : ℚ) (hq : 0 ≤ q) (hden : isDecimalB q = true)
    (rest : List Char) (hrest : ∀ c, rest.head? = some c → isDigitChar c = false) :
    parseNumAbs (renderFloatAbs q ++ rest) = some (q, rest) := by
  have hrender : renderFloatAbs q =
      renderNat (q.num.natAbs * 10 ^ decExp q.den / q.den / 10 ^ decExp q.den) ++
        '.' :: padZeros (decExp q.den)
          (renderNat (q.num.natAbs * 10 ^ decExp q.den / q.den % 10 ^ decExp q.den)) := rfl
  have hk1 : 1 ≤ decExp q.den := decExp_pos q.den
  have hdvd : q.den ∣ 10 ^ decExp q.den := by
    unfold isDecimalB at hden
    exact Nat.dvd_of_mod_eq_zero (beq_iff_eq.mp hden)
  rw [hrender]
  generalize hS : q.num.natAbs * 10 ^ decExp q.den / q.den = scaled at *
  generalize hK : decExp q.den = k at *
  obtain ⟨hIne, hIdig, hIval, _⟩ := renderNat_spec (scaled / 10 ^ k)
  obtain ⟨hFne, hFdig, hFval, hFlen⟩ := renderNat_spec (scaled % 10 ^ k)
  have hIlen : 1 ≤ (renderNat (scaled / 10 ^ k)).length := by
    cases hrn : renderNat (scaled / 10 ^ k) with
    | nil => exact absurd hrn hIne
    | cons a l => simp
  have hFle : (renderNat (scaled % 10 ^ k)).length ≤ k := by
    rcases hFlen with h1 | h1
    · omega
    · have hmod : scaled % 10 ^ k < 10 ^ k :=
        Nat.mod_lt scaled (Nat.pos_pow_of_pos k (by norm_num))
      by_contra hcon
      have : 10 ^ k ≤ 10 ^ ((renderNat (scaled % 10 ^ k)).length - 1) :=
        Nat.pow_le_pow_right (by norm_num) (by omega)
      omega
  have hpadd : ∀ c ∈ padZeros k (renderNat (scaled % 10 ^ k)), isDigitChar c = true :=
    padZeros_digits k _ hFdig
  have hpadv : dval 0 (padZeros k (renderNat (scaled % 10 ^ k)))
      = scaled % 10 ^ k := by
    unfold padZeros
    rw [dval_zeros, hFval]
  have hpadl : (padZeros k (renderNat (scaled % 10 ^ k))).length = k :=
    padZeros_length k _ hFle
  have hint : parseDigitsCntAcc 0 0
      (renderNat (scaled / 10 ^ k) ++
        '.' :: (padZeros k (renderNat (scaled % 10 ^ k)) ++ rest))
      = (scaled / 10 ^ k, 0 + (renderNat (scaled / 10 ^ k)).length,
          '.' :: (padZeros k (renderNat (scaled % 10 ^ k)) ++ rest)) := by
    rw [parseDigitsCntAcc_digits _ 0 0 _ hIdig,
      parseDigitsCntAcc_stop _ _ _ (fun c hc => by
        rw [List.head?_cons] at hc
        injection hc with hc
        rw [← hc]
        decide),
      hIval]
  have hfrac : parseDigitsCntAcc 0 0 (padZeros k (renderNat (scaled % 10 ^ k)) ++ rest)
      = (scaled % 10 ^ k, 0 + k, rest) := by
    rw [parseDigitsCntAcc_digits _ 0 0 rest hpadd, parseDigitsCntAcc_stop _ _ _ hrest,
      hpadv, hpadl]
  rw [List.append_assoc, List.cons_append,
    parseNumAbs_eq _ _ _ _ _ _ _ hint (by omega) hfrac (by omega)]
  have hzk : (0 : Nat) + k = k := Nat.zero_add k
  rw [hzk]
  congr 1
  rw [Prod.mk.injEq]
  refine ⟨?_, rfl⟩
  have hden0 : (q.den : ℚ) ≠ 0 := by
    exact_mod_cast q.den_nz
  have hp0 : (0 : ℚ) < (10 : ℚ) ^ k := by positivity
  have hscaled_mul : scaled * q.den = q.num.natAbs * 10 ^ k := by
    rw [← hS]
    exact Nat.div_mul_cancel (Dvd.dvd.mul_left hdvd q.num.natAbs)
  have hIF : scaled / 10 ^ k * 10 ^ k + scaled % 10 ^ k = scaled := by
    rw [Nat.mul_comm]
    exact Nat.div_add_mod scaled (10 ^ k)
  have hnum : ((q.num.natAbs : ℤ) : ℚ) = (q.num : ℚ) := by
    rw [Int.natAbs_of_nonneg (Rat.num_nonneg.mpr hq)]
  have hcast : ((scaled / 10 ^ k : ℕ) : ℚ) * 10 ^ k + ((scaled % 10 ^ k : ℕ) : ℚ)
      = (scaled : ℚ) := by
    exact_mod_cast congrArg (fun n : ℕ => (n : ℚ)) hIF
  have hqd : q * (q.den : ℚ) = ((q.num.natAbs : ℕ) : ℚ) := by
    have h1 : q * (q.den : ℚ) = (q.num : ℚ) := by
      have h := Rat.num_div_den q
      rw [div_eq_iff hden0] at h
      exact h.symm
    rw [h1, ← hnum, Int.cast_natCast]
  have h2 : (scaled : ℚ) * (q.den : ℚ) = ((q.num.natAbs : ℕ) : ℚ) * 10 ^ k := by
    exact_mod_cast congrArg (fun n : ℕ => (n : ℚ)) hscaled_mul
  have h3 : (scaled : ℚ) = q * 10 ^ k := by
    apply mul_right_cancel₀ hden0
    rw [h2, ← hqd]
    ring
  have h10ne : ((10 : ℚ) ^ k) ≠ 0 := by positivity
  calc ((scaled / 10 ^ k : ℕ) : ℚ) + ((scaled % 10 ^ k : ℕ) : ℚ) / 10 ^ k
      = (((scaled / 10 ^ k : ℕ) : ℚ) * 10 ^ k + ((scaled % 10 ^ k : ℕ) : ℚ)) / 10 ^ k := by
        field_simp
  _ = (scaled : ℚ) / 10 ^ k := by rw [hcast]
  _ = q := by rw [h3, mul_div_cancel_right₀ q h10ne]

theorem skipWs_idem (s : List Char) : skipWs (skipWs s) = skipWs s := by
  induction s with
  | nil => rfl
  | cons c cs ih =>
    show skipWs ((c :: cs).dropWhile isJsonWs) = (c :: cs).dropWhile isJsonWs
    rw [List.dropWhile_cons]
    by_cases h : isJsonWs c = true
    · rw [if_pos h]
      exact ih
    · rw [if_neg h]
      exact skipWs_not_ws c cs (Bool.not_eq_true _ ▸ h)

theorem skipWs_head_not_ws (s : List Char) (c : Char) (tail : List Char)
    (h : skipWs s = c :: tail) : isJsonWs c = false := by
  induction s with
  | nil => exact absurd h (by simp [skipWs])
  | cons a as ih =>
    rw [show skipWs (a :: as) = (a :: as).dropWhile isJsonWs from rfl,
      List.dropWhile_cons] at h
    by_cases ha : isJsonWs a = true
    · rw [if_pos ha] at h
      exact ih h
    · rw [if_neg ha] at h
      injection h with h1 _
      rw [← h1]
      exact Bool.not_eq_true _ ▸ ha

theorem parseVal_skip (fuel : Nat) (s : List Char) (c : Char) (tail : List Char)
    (h : skipWs s = c :: tail) :
    parseVal (fuel + 1) s = parseVal (fuel + 1) (c :: tail) := by
  have hnw := skipWs_head_not_ws s c tail h
  unfold parseVal
  rw [h, skipWs_not_ws c tail hnw]

theorem parseVal_cons_digit (fuel : Nat) (c : Char) (tail : List Char)
    (hdig : isDigitChar c = true) :
    parseVal (fuel + 1) (c :: tail) =
      (parseNumAbs (c :: tail)).map (fun p => (PyJson.num p.1, p.2)) := by
  obtain ⟨hlo, hhi⟩ := digit_bounds c hdig
  have hnw : isJsonWs c = false := isJsonWs_eq_false_of_ge c (by omega)
  have h1 : ¬c = 'n' := fun hh => by rw [hh] at hhi; exact absurd hhi (by decide)
  have h2 : ¬c = 't' := fun hh => by rw [hh] at hhi; exact absurd hhi (by decide)
  have h3 : ¬c = 'f' := fun hh => by rw [hh] at hhi; exact absurd hhi (by decide)
  have h4 : ¬c = '"' := fun hh => by rw [hh] at hlo; exact absurd hlo (by decide)
  have h5 : ¬c = '[' := fun hh => by rw [hh] at hhi; exact absurd hhi (by decide)
  have h6 : ¬c = '{' := fun hh => by rw [hh] at hhi; exact absurd hhi (by decide)
  have h7 : ¬c = '-' := fun hh => by rw [hh] at hlo; exact absurd hlo (by decide)
  unfold parseVal
  rw [skipWs_not_ws c tail hnw]
  simp only [h1, h2, h3, h4, h5, h6, h7, hdig, if_false, if_true, ite_false, ite_true]

theorem parseVal_cons_minus (fuel : Nat) (tail : List Char) :
    parseVal (fuel + 1) ('-' :: tail) =
      (parseNumAbs tail).map (fun p => (PyJson.num (-p.1), p.2)) := by
  unfold parseVal
  rw [skipWs_not_ws '-' tail (by decide)]
  simp only [show ('-' = 'n') = False by decide, show ('-' = 't') = False by decide,
    show ('-' = 'f') = False by decide, show ('-' = '"') = False by decide,
    show ('-' = '[') = False by decide, show ('-' = '{') = False by decide,
    if_false, ite_true, ite_false, if_true]

theorem parseVal_cons_quote (fuel : Nat) (tail : List Char) :
    parseVal (fuel + 1) ('"' :: tail) =
      (parseStrBody tail).map (fun p => (PyJson.str (String.mk p.1), p.2)) := by
  unfold parseVal
  rw [skipWs_not_ws '"' tail (by decide)]
  simp only [show ('"' = 'n') = False by decide, show ('"' = 't') = False by decide,
    show ('"' = 'f') = False by decide, if_false, ite_true, ite_false, if_true]

theorem parseVal_cons_obj (fuel : Nat) (tail t2 : List Char)
    (hskip2 : skipWs tail = '"' :: t2) :
    parseVal (fuel + 1) ('{' :: tail) = parseMembers fuel tail [] := by
  unfold parseVal
  rw [skipWs_not_ws '{' tail (by decide)]
  simp only [show ('{' = 'n') = False by decide, show ('{' = 't') = False by decide,
    show ('{' = 'f') = False by decide, show ('{' = '"') = False by decide,
    show ('{' = '[') = False by decide, if_false, ite_true, ite_false, if_true,
    hskip2]
  rfl

theorem parseVal_cons_arr (fuel : Nat) (tail t2 : List Char)
    (hskip2 : skipWs tail = '{' :: t2) :
    parseVal (fuel + 1) ('[' :: tail) = parseItems fuel tail [] := by
  unfold parseVal
  rw [skipWs_not_ws '[' tail (by decide)]
  simp only [show ('[' = 'n') = False by decide, show ('[' = 't') = False by decide,
    show ('[' = 'f') = False by decide, show ('[' = '"') = False by decide,
    if_false, ite_true, ite_false, if_true, hskip2]
  rfl

theorem strSafe_facts (c : Char) (h : strSafeChar c = true) :
    ¬c.toNat < 32 ∧ c.toNat ≠ 34 ∧ c.toNat ≠ 92 := by
  unfold strSafeChar at h
  rw [Bool.and_eq_true, Bool.and_eq_true] at h
  obtain ⟨⟨ha, hb⟩, hc⟩ := h
  refine ⟨?_, ?_, ?_⟩
  · rw [Bool.not_eq_eq_eq_not, Bool.not_true, decide_eq_false_iff_not] at ha
    exact ha
  · exact bne_iff_ne.mp hb
  · exact bne_iff_ne.mp hc

theorem escChar_safe (c : Char) (h : strSafeChar c = true) : escChar c = [c] := by
  obtain ⟨h32, h34, h92⟩ := strSafe_facts c h
  unfold escChar
  rw [if_neg (fun hh => h34 (by rw [hh]; rfl)),
    if_neg (fun hh => h92 (by rw [hh]; rfl)),
    if_neg (fun hh => h32 (by rw [hh]; decide)),
    if_neg (fun hh => h32 (by rw [hh]; decide)),
    if_neg (fun hh => h32 (by rw [hh]; decide)),
    if_neg (fun hh => h32 (by rw [hh]; decide)),
    if_neg (fun hh => h32 (by rw [hh]; decide)),
    if_neg h32]

theorem escapeChars_safe (cs : List Char) (h : ∀ c ∈ cs, strSafeChar c = true) :
    escapeChars cs = cs := by
  induction cs with
  | nil => rfl
  | cons c rest ih =>
    unfold escapeChars
    rw [List.flatMap_cons]
    show escChar c ++ escapeChars rest = c :: rest
    rw [escChar_safe c (h c (List.mem_cons_self c rest)),
      ih (fun d hd => h d (List.mem_cons_of_mem c hd))]
    rfl

theorem parseStrBody_safe (cs : List Char) :
    ∀ rest, (∀ c ∈ cs, strSafeChar c = true) →
      parseStrBody (cs ++ '"' :: rest) = some (cs, rest) := by
  induction cs with
  | nil =>
    intro rest _
    show parseStrBody ('"' :: rest) = _
    unfold parseStrBody
    rw [if_pos rfl]
  | cons c cs' ih =>
    intro rest hall
    obtain ⟨h32, h34, h92⟩ := strSafe_facts c (hall c (List.mem_cons_self c cs'))
    rw [List.cons_append]
    show parseStrBody (c :: (cs' ++ '"' :: rest)) = _
    unfold parseStrBody
    rw [if_neg (fun hh => h34 (by rw [hh]; rfl)),
      if_neg (fun hh => h92 (by rw [hh]; rfl)),
      ih rest (fun d hd => hall d (List.mem_cons_of_mem c hd))]
    rfl

theorem parseVal_num_ws (fuel : Nat) (ws : List Char)
    (hws : ∀ c ∈ ws, isJsonWs c = true) (q : ℚ) (hden : isDecimalB q = true)
    (rest : List Char) (hrest : ∀ c, rest.head? = some c → isDigitChar c = false) :
    parseVal (fuel + 1) (ws ++ (renderFloat q ++ rest)) = some (.num q, rest) := by
  by_cases hq : q < 0
  · have hrender : renderFloat q = '-' :: renderFloatAbs (-q) := by
      unfold renderFloat
      rw [if_pos hq]
    have hskip : skipWs (ws ++ (renderFloat q ++ rest))
        = '-' :: (renderFloatAbs (-q) ++ rest) := by
      rw [hrender, skipWs_append_ws ws _ hws, List.cons_append]
      exact skipWs_not_ws '-' _ (by decide)
    rw [parseVal_skip fuel _ '-' _ hskip, parseVal_cons_minus,
      parseNumAbs_render (-q) (by linarith) (by
        have hd : (-q).den = q.den := Rat.neg_den q
        unfold isDecimalB
        rw [hd]
        exact hden) rest hrest]
    show some (PyJson.num (- - q), rest) = some (PyJson.num q, rest)
    rw [neg_neg]
  · have hrender : renderFloat q = renderFloatAbs q := by
      unfold renderFloat
      rw [if_neg hq]
    obtain ⟨hIne, hIdig, _, _⟩ :=
      renderNat_spec (q.num.natAbs * 10 ^ decExp q.den / q.den / 10 ^ decExp q.den)
    have habs : renderFloatAbs q =
        renderNat (q.num.natAbs * 10 ^ decExp q.den / q.den / 10 ^ decExp q.den) ++
          '.' :: padZeros (decExp q.den)
            (renderNat (q.num.natAbs * 10 ^ decExp q.den / q.den % 10 ^ decExp q.den)) := rfl
    obtain ⟨c0, cs0, hds⟩ : ∃ c0 cs0,
        renderNat (q.num.natAbs * 10 ^ decExp q.den / q.den / 10 ^ decExp q.den)
          = c0 :: cs0 := by
      cases hrn : renderNat (q.num.natAbs * 10 ^ decExp q.den / q.den / 10 ^ decExp q.den) with
      | nil => exact absurd hrn hIne
      | cons a l => exact ⟨a, l, rfl⟩
    have hc0 : isDigitChar c0 = true := hIdig c0 (by rw [hds]; exact List.mem_cons_self _ _)
    have hcons : renderFloat q ++ rest = c0 :: (cs0 ++ '.' ::
        padZeros (decExp q.den)
          (renderNat (q.num.natAbs * 10 ^ decExp q.den / q.den % 10 ^ decExp q.den)) ++ rest) := by
      rw [hrender, habs, hds]
      simp [List.cons_append, List.append_assoc]
    have hskip : skipWs (ws ++ (renderFloat q ++ rest)) = c0 :: (cs0 ++ '.' ::
        padZeros (decExp q.den)
          (renderNat (q.num.natAbs * 10 ^ decExp q.den / q.den % 10 ^ decExp q.den)) ++ rest) := by
      rw [skipWs_append_ws ws _ hws, hcons]
      refine skipWs_not_ws c0 _ ?_
      obtain ⟨hlo, _⟩ := digit_bounds c0 hc0
      exact isJsonWs_eq_false_of_ge c0 (by omega)
    rw [parseVal_skip fuel _ c0 _ hskip, parseVal_cons_digit fuel c0 _ hc0, ← hcons,
      hrender, parseNumAbs_render q (by linarith) hden rest hrest]
    rfl

theorem parseVal_str_ws (fuel : Nat) (ws : List Char)
    (hws : ∀ c ∈ ws, isJsonWs c = true) (s : String)
    (hsafe : ∀ c ∈ s.data, strSafeChar c = true) (rest : List Char) :
    parseVal (fuel + 1) (ws ++ (('"' :: escapeChars s.data ++ ['"']) ++ rest))
      = some (.str s, rest) := by
  have hskip : skipWs (ws ++ (('"' :: escapeChars s.data ++ ['"']) ++ rest))
      = '"' :: (s.data ++ '"' :: rest) := by
    rw [skipWs_append_ws ws _ hws, escapeChars_safe s.data hsafe]
    have hshape : ('"' :: s.data ++ ['"']) ++ rest = '"' :: (s.data ++ '"' :: rest) := by
      simp [List.cons_append, List.append_assoc]
    rw [hshape]
    exact skipWs_not_ws '"' _ (by decide)
  rw [parseVal_skip fuel _ '"' _ hskip, parseVal_cons_quote,
    parseStrBody_safe s.data rest hsafe]
  rfl

theorem parseMembers_step_comma (fuel : Nat) (s t2 key r1 r2 : List Char)
    (v : PyJson) (r3 r4 : List Char) (acc : List (String × PyJson))
    (hskip : skipWs s = '"' :: t2)
    (hbody : parseStrBody t2 = some (key, r1))
    (hcolon : skipWs r1 = ':' :: r2)
    (hval : parseVal fuel r2 = some (v, r3))
    (hsep : skipWs r3 = ',' :: r4) :
    parseMembers (fuel + 1) s acc = parseMembers fuel r4 ((String.mk key, v) :: acc) := by
  conv_lhs => unfold parseMembers
  simp only [hskip, hbody, hcolon, hval, hsep]

theorem parseMembers_step_close (fuel : Nat) (s t2 key r1 r2 : List Char)
    (v : PyJson) (r3 r4 : List Char) (acc : List (String × PyJson))
    (hskip : skipWs s = '"' :: t2)
    (hbody : parseStrBody t2 = some (key, r1))
    (hcolon : skipWs r1 = ':' :: r2)
    (hval : parseVal fuel r2 = some (v, r3))
    (hsep : skipWs r3 = '}' :: r4) :
    parseMembers (fuel + 1) s acc
      = some (.obj ((String.mk key, v) :: acc).reverse, r4) := by
  unfold parseMembers
  simp only [hskip, hbody, hcolon, hval, hsep]

theorem parseItems_step_comma (fuel : Nat) (s : List Char) (v : PyJson)
    (r r2 : List Char) (acc : List PyJson)
    (hval : parseVal fuel s = some (v, r))
    (hsep : skipWs r = ',' :: r2) :
    parseItems (fuel + 1) s acc = parseItems fuel r2 (v :: acc) := by
  conv_lhs => unfold parseItems
  simp only [hval, hsep]

theorem parseItems_step_close (fuel : Nat) (s : List Char) (v : PyJson)
    (r r2 : List Char) (acc : List PyJson)
    (hval : parseVal fuel s = some (v, r))
    (hsep : skipWs r = ']' :: r2) :
    parseItems (fuel + 1) s acc = some (.arr (v :: acc).reverse, r2) := by
  unfold parseItems
  simp only [hval, hsep]

theorem renderJson_row (d : String) (q : ℚ) :
    renderJson 2 (.obj [("date", .str d), ("close", .num q)]) =
      "\x7b\n    \"close\": ".data ++ (renderFloat q ++ (",\n    \"date\": \"".data ++
        (escapeChars d.data ++ "\"\n  \x7d".data))) := by
  have hkey : keyLe "date" "close" = false := by decide
  have hec : escapeChars "close".data = "close".data := by decide
  have hed : escapeChars "date".data = "date".data := by decide
  simp only [renderJson, renderMemberPairs, sortLe, insertLe, hkey, Bool.false_eq_true,
    if_false, List.map_cons, List.map_nil, joinRendered, memberLine, spacesN, hec, hed]
  have hrep4 : List.replicate (2 + 2) ' ' = [' ', ' ', ' ', ' '] := rfl
  have hrep2 : List.replicate 2 ' ' = [' ', ' '] := rfl
  simp only [hrep4, hrep2, List.cons_append, List.append_assoc, List.nil_append]



theorem parseVal_row (f : Nat) (d : String) (q : ℚ) (ws rest : List Char)
    (hws : ∀ c ∈ ws, isJsonWs c = true)
    (hsafe : ∀ c ∈ d.data, strSafeChar c = true)
    (hdec : isDecimalB q = true) :
    parseVal (f + 4)
      (ws ++ (renderJson 2 (.obj [("date", .str d), ("close", .num q)]) ++ rest))
      = some (.obj [("close", .num q), ("date", .str d)], rest) := by
  have hform : renderJson 2 (.obj [("date", .str d), ("close", .num q)]) ++ rest
      = '{' :: rowTailB d q rest := by
    rw [renderJson_row]
    unfold rowTailB rowTailC rowTailD
    simp [List.cons_append, List.append_assoc]
  have hskipTop : skipWs (ws ++ (renderJson 2
      (.obj [("date", .str d), ("close", .num q)]) ++ rest))
      = '{' :: rowTailB d q rest := by
    rw [skipWs_append_ws ws _ hws, hform]
    exact skipWs_not_ws '{' _ (by decide)
  have hskipB : skipWs (rowTailB d q rest)
      = '"' :: ('c' :: 'l' :: 'o' :: 's' :: 'e' :: '"' :: ':' :: ' ' :: rowTailC d q rest) := by
    have hsh : rowTailB d q rest = ['\n', ' ', ' ', ' ', ' '] ++
        ('"' :: ('c' :: 'l' :: 'o' :: 's' :: 'e' :: '"' :: ':' :: ' ' ::
          rowTailC d q rest)) := rfl
    rw [hsh, skipWs_append_ws _ _ (by decide)]
    exact skipWs_not_ws '"' _ (by decide)
  show parseVal ((f + 3) + 1) _ = _
  rw [parseVal_skip (f + 3) _ '{' _ hskipTop, parseVal_cons_obj (f + 3) _ _ hskipB]
  have hbody1 : parseStrBody
      ('c' :: 'l' :: 'o' :: 's' :: 'e' :: '"' :: ':' :: ' ' :: rowTailC d q rest)
      = some ("close".data, ':' :: ' ' :: rowTailC d q rest) := by
    have hsh : ('c' :: 'l' :: 'o' :: 's' :: 'e' :: '"' :: ':' :: ' ' :: rowTailC d q rest)
        = "close".data ++ '"' :: (':' :: ' ' :: rowTailC d q rest) := rfl
    rw [hsh]
    exact parseStrBody_safe "close".data _ (by decide)
  have hcolon1 : skipWs (':' :: ' ' :: rowTailC d q rest)
      = ':' :: (' ' :: rowTailC d q rest) :=
    skipWs_not_ws ':' _ (by decide)
  have hval1 : parseVal (f + 2) (' ' :: rowTailC d q rest)
      = some (.num q, ',' :: '\n' :: ' ' :: ' ' :: ' ' :: ' ' :: '"' :: 'd' :: 'a' ::
          't' :: 'e' :: '"' :: ':' :: ' ' :: '"' :: rowTailD d rest) := by
    have hsh : (' ' :: rowTailC d q rest)
        = [' '] ++ (renderFloat q ++ (',' :: '\n' :: ' ' :: ' ' :: ' ' :: ' ' :: '"' ::
          'd' :: 'a' :: 't' :: 'e' :: '"' :: ':' :: ' ' :: '"' :: rowTailD d rest)) := rfl
    rw [hsh]
    exact parseVal_num_ws (f + 1) [' '] (by decide) q hdec _ (fun c hc => by
      rw [List.head?_cons] at hc
      injection hc with hc
      rw [← hc]
      decide)
  have hsep1 : skipWs (',' :: '\n' :: ' ' :: ' ' :: ' ' :: ' ' :: '"' :: 'd' :: 'a' ::
      't' :: 'e' :: '"' :: ':' :: ' ' :: '"' :: rowTailD d rest)
      = ',' :: ('\n' :: ' ' :: ' ' :: ' ' :: ' ' :: '"' :: 'd' :: 'a' ::
        't' :: 'e' :: '"' :: ':' :: ' ' :: '"' :: rowTailD d rest) :=
    skipWs_not_ws ',' _ (by decide)
  rw [show f + 3 = (f + 2) + 1 from rfl,
    parseMembers_step_comma (f + 2) _ _ _ _ _ _ _ _ _ hskipB hbody1 hcolon1 hval1 hsep1]
  have hskip2 : skipWs ('\n' :: ' ' :: ' ' :: ' ' :: ' ' :: '"' :: 'd' :: 'a' ::
      't' :: 'e' :: '"' :: ':' :: ' ' :: '"' :: rowTailD d rest)
      = '"' :: ('d' :: 'a' :: 't' :: 'e' :: '"' :: ':' :: ' ' :: '"' :: rowTailD d rest) := by
    have hsh : ('\n' :: ' ' :: ' ' :: ' ' :: ' ' :: '"' :: 'd' :: 'a' ::
        't' :: 'e' :: '"' :: ':' :: ' ' :: '"' :: rowTailD d rest)
        = ['\n', ' ', ' ', ' ', ' '] ++
          ('"' :: ('d' :: 'a' :: 't' :: 'e' :: '"' :: ':' :: ' ' :: '"' ::
            rowTailD d rest)) := rfl
    rw [hsh, skipWs_append_ws _ _ (by decide)]
    exact skipWs_not_ws '"' _ (by decide)
  have hbody2 : parseStrBody
      ('d' :: 'a' :: 't' :: 'e' :: '"' :: ':' :: ' ' :: '"' :: rowTailD d rest)
      = some ("date".data, ':' :: ' ' :: '"' :: rowTailD d rest) := by
    have hsh : ('d' :: 'a' :: 't' :: 'e' :: '"' :: ':' :: ' ' :: '"' :: rowTailD d rest)
        = "date".data ++ '"' :: (':' :: ' ' :: '"' :: rowTailD d rest) := rfl
    rw [hsh]
    exact parseStrBody_safe "date".data _ (by decide)
  have hcolon2 : skipWs (':' :: ' ' :: '"' :: rowTailD d rest)
      = ':' :: (' ' :: '"' :: rowTailD d rest) :=
    skipWs_not_ws ':' _ (by decide)
  have hval2 : parseVal (f + 1) (' ' :: '"' :: rowTailD d rest)
      = some (.str d, '\n' :: ' ' :: ' ' :: '}' :: rest) := by
    have hsh : (' ' :: '"' :: rowTailD d rest)
        = [' '] ++ (('"' :: escapeChars d.data ++ ['"']) ++
          ('\n' :: ' ' :: ' ' :: '}' :: rest)) := by
      unfold rowTailD
      simp [List.cons_append, List.append_assoc]
    rw [hsh]
    exact parseVal_str_ws f [' '] (by decide) d hsafe _
  have hsep2 : skipWs ('\n' :: ' ' :: ' ' :: '}' :: rest) = '}' :: rest := by
    have hsh : ('\n' :: ' ' :: ' ' :: '}' :: rest)
        = ['\n', ' ', ' '] ++ ('}' :: rest) := rfl
    rw [hsh, skipWs_append_ws _ _ (by decide)]
    exact skipWs_not_ws '}' _ (by decide)
  rw [show f + 2 = (f + 1) + 1 from rfl,
    parseMembers_step_close (f + 1) _ _ _ _ _ _ _ _ _ hskip2 hbody2 hcolon2 hval2 hsep2]
  rfl

theorem ws_append_spaces (ws : List Char) (n : Nat)
    (hws : ∀ c ∈ ws, isJsonWs c = true) :
    ∀ c ∈ ws ++ spacesN n, isJsonWs c = true := by
  intro c hc
  rw [List.mem_append] at hc
  rcases hc with hc | hc
  · exact hws c hc
  · rw [spacesN, List.mem_replicate] at hc
    rw [hc.2]
    decide

theorem parseItems_rows (rows : List (String × ℚ)) :
    ∀ f acc (ws docRest : List Char),
      rows ≠ [] →
      (∀ p ∈ rows, (∀ c ∈ p.1.data, strSafeChar c = true) ∧ isDecimalB p.2 = true) →
      (∀ c ∈ ws, isJsonWs c = true) →
      5 * rows.length ≤ f →
      parseItems f (ws ++ (joinRendered 2 (renderListItems 2
          (rows.map (fun p => PyJson.obj [("date", .str p.1), ("close", .num p.2)])))
        ++ ('\n' :: ']' :: docRest))) acc
      = some (.arr (acc.reverse ++ rows.map
          (fun p => PyJson.obj [("close", .num p.2), ("date", .str p.1)])), docRest) := by
  induction rows with
  | nil => intro f acc ws docRest hne _ _ _; exact absurd rfl hne
  | cons r rs ih =>
    intro f acc ws docRest _ hgood hws hf
    cases f with
    | zero => simp at hf
    | succ f0 =>
      have hr := hgood r (List.mem_cons_self r rs)
      cases rs with
      | nil =>
        have hjoin : joinRendered 2 (renderListItems 2
            ([r].map (fun p => PyJson.obj [("date", .str p.1), ("close", .num p.2)])))
            = spacesN 2 ++ renderJson 2 (.obj [("date", .str r.1), ("close", .num r.2)]) := rfl
        have hshape : ws ++ (joinRendered 2 (renderListItems 2
            ([r].map (fun p => PyJson.obj [("date", .str p.1), ("close", .num p.2)])))
            ++ ('\n' :: ']' :: docRest))
            = (ws ++ spacesN 2) ++
              (renderJson 2 (.obj [("date", .str r.1), ("close", .num r.2)]) ++
                ('\n' :: ']' :: docRest)) := by
          rw [hjoin]
          simp [List.append_assoc]
        have hval : parseVal f0 ((ws ++ spacesN 2) ++
            (renderJson 2 (.obj [("date", .str r.1), ("close", .num r.2)]) ++
              ('\n' :: ']' :: docRest)))
            = some (.obj [("close", .num r.2), ("date", .str r.1)],
                '\n' :: ']' :: docRest) := by
          have hf4 : f0 = (f0 - 4) + 4 := by
            simp only [List.length_cons, List.length_nil] at hf
            omega
          rw [hf4]
          exact parseVal_row (f0 - 4) r.1 r.2 _ _
            (ws_append_spaces ws 2 hws) hr.1 hr.2
        have hsep : skipWs ('\n' :: ']' :: docRest) = ']' :: docRest := by
          have hsh : ('\n' :: ']' :: docRest) = ['\n'] ++ (']' :: docRest) := rfl
          rw [hsh, skipWs_append_ws _ _ (by decide)]
          exact skipWs_not_ws ']' _ (by decide)
        rw [hshape, parseItems_step_close f0 _ _ _ _ acc hval hsep]
        simp
      | cons r2 rs2 =>
        have hr2good : ∀ p ∈ r2 :: rs2,
            (∀ c ∈ p.1.data, strSafeChar c = true) ∧ isDecimalB p.2 = true :=
          fun p hp => hgood p (List.mem_cons_of_mem r hp)
        have hjoin : joinRendered 2 (renderListItems 2
            ((r :: r2 :: rs2).map
              (fun p => PyJson.obj [("date", .str p.1), ("close", .num p.2)])))
            = spacesN 2 ++ renderJson 2 (.obj [("date", .str r.1), ("close", .num r.2)])
              ++ ',' :: '\n' :: joinRendered 2 (renderListItems 2
                ((r2 :: rs2).map
                  (fun p => PyJson.obj [("date", .str p.1), ("close", .num p.2)]))) := rfl
        have hshape : ws ++ (joinRendered 2 (renderListItems 2
            ((r :: r2 :: rs2).map
              (fun p => PyJson.obj [("date", .str p.1), ("close", .num p.2)])))
            ++ ('\n' :: ']' :: docRest))
            = (ws ++ spacesN 2) ++
              (renderJson 2 (.obj [("date", .str r.1), ("close", .num r.2)]) ++
                (',' :: ('\n' :: (joinRendered 2 (renderListItems 2
                  ((r2 :: rs2).map
                    (fun p => PyJson.obj [("date", .str p.1), ("close", .num p.2)])))
                  ++ ('\n' :: ']' :: docRest))))) := by
          rw [hjoin]
          simp [List.append_assoc]
        have hval : parseVal f0 ((ws ++ spacesN 2) ++
            (renderJson 2 (.obj [("date", .str r.1), ("close", .num r.2)]) ++
              (',' :: ('\n' :: (joinRendered 2 (renderListItems 2
                ((r2 :: rs2).map
                  (fun p => PyJson.obj [("date", .str p.1), ("close", .num p.2)])))
                ++ ('\n' :: ']' :: docRest))))))
            = some (.obj [("close", .num r.2), ("date", .str r.1)],
                ',' :: ('\n' :: (joinRendered 2 (renderListItems 2
                  ((r2 :: rs2).map
                    (fun p => PyJson.obj [("date", .str p.1), ("close", .num p.2)])))
                  ++ ('\n' :: ']' :: docRest)))) := by
          have hf4 : f0 = (f0 - 4) + 4 := by
            simp only [List.length_cons] at hf
            omega
          rw [hf4]
          exact parseVal_row (f0 - 4) r.1 r.2 _ _
            (ws_append_spaces ws 2 hws) hr.1 hr.2
        have hsep : skipWs (',' :: ('\n' :: (joinRendered 2 (renderListItems 2
            ((r2 :: rs2).map
              (fun p => PyJson.obj [("date", .str p.1), ("close", .num p.2)])))
            ++ ('\n' :: ']' :: docRest))))
            = ',' :: ('\n' :: (joinRendered 2 (renderListItems 2
              ((r2 :: rs2).map
                (fun p => PyJson.obj [("date", .str p.1), ("close", .num p.2)])))
              ++ ('\n' :: ']' :: docRest))) :=
          skipWs_not_ws ',' _ (by decide)
        rw [hshape, parseItems_step_comma f0 _ _ _ _ acc hval hsep]
        have hlen : 5 * (r2 :: rs2).length ≤ f0 := by
          simp only [List.length_cons] at hf ⊢
          omega
        have hrec := ih f0 (PyJson.obj [("close", .num r.2), ("date", .str r.1)] :: acc)
          ['\n'] docRest (by simp) hr2good (by decide) hlen
        rw [show ('\n' :: (joinRendered 2 (renderListItems 2
            ((r2 :: rs2).map
              (fun p => PyJson.obj [("date", .str p.1), ("close", .num p.2)])))
            ++ ('\n' :: ']' :: docRest)))
          = ['\n'] ++ (joinRendered 2 (renderListItems 2
              ((r2 :: rs2).map
                (fun p => PyJson.obj [("date", .str p.1), ("close", .num p.2)])))
            ++ ('\n' :: ']' :: docRest)) from rfl, hrec]
        simp

theorem renderRow_cons (d : String) (q : ℚ) (rest : List Char) :
    renderJson 2 (.obj [("date", .str d), ("close", .num q)]) ++ rest
      = '{' :: rowTailB d q rest := by
  rw [renderJson_row]
  unfold rowTailB rowTailC rowTailD
  simp [List.cons_append, List.append_assoc]

theorem renderRow_len (d : String) (q : ℚ) :
    5 ≤ (renderJson 2 (.obj [("date", .str d), ("close", .num q)])).length := by
  have h := congrArg List.length (renderRow_cons d q [])
  rw [List.length_append] at h
  simp only [List.length_nil, Nat.add_zero] at h
  rw [h]
  unfold rowTailB
  simp

theorem joinRendered_len (ls : List (List Char)) (h : ∀ l ∈ ls, 5 ≤ l.length) :
    5 * ls.length ≤ (joinRendered 2 ls).length := by
  induction ls with
  | nil => simp [joinRendered]
  | cons l ls2 ih =>
    cases ls2 with
    | nil =>
      have hl := h l (List.mem_cons_self l [])
      simp only [joinRendered, List.length_append, List.length_cons, List.length_nil,
        spacesN, List.length_replicate]
      omega
    | cons l2 ls3 =>
      have hl := h l (List.mem_cons_self l _)
      have hrec := ih (fun x hx => h x (List.mem_cons_of_mem l hx))
      simp only [joinRendered, List.length_append, List.length_cons,
        spacesN, List.length_replicate] at *
      omega

theorem renderListItems_rows_len (rows : List (String × ℚ)) :
    ∀ l ∈ renderListItems 2 (rows.map
      (fun p => PyJson.obj [("date", .str p.1), ("close", .num p.2)])), 5 ≤ l.length := by
  induction rows with
  | nil => intro l hl; simp [renderListItems] at hl
  | cons r rs ih =>
    intro l hl
    simp only [List.map_cons, renderListItems, List.mem_cons] at hl
    rcases hl with hl | hl
    · rw [hl]
      exact renderRow_len r.1 r.2
    · exact ih l hl

theorem insertLe_perm {α : Type} (le : α → α → Bool) (x : α) (l : List α) :
    (insertLe le x l).Perm (x :: l) := by
  induction l with
  | nil => exact List.Perm.refl _
  | cons y ys ih =>
    unfold insertLe
    by_cases h : le x y = true
    · rw [if_pos h]
    · rw [if_neg h]
      exact (ih.cons y).trans (List.Perm.swap x y ys)

theorem sortLe_perm {α : Type} (le : α → α → Bool) (l : List α) :
    (sortLe le l).Perm l := by
  induction l with
  | nil => exact List.Perm.refl _
  | cons x xs ih =>
    exact (insertLe_perm le x (sortLe le xs)).trans (ih.cons x)

theorem dictGet_some_mem (m : PyDict) (k : String) (v : ℚ)
    (h : dictGet m k = some v) : ∃ p ∈ m, p.2 = v := by
  unfold dictGet at h
  rcases hf : m.find? (fun p => p.1 == k) with _ | p
  · rw [hf] at h
    exact absurd h (by simp)
  · rw [hf] at h
    refine ⟨p, List.mem_of_find?_eq_some hf, ?_⟩
    have h2 : some p.2 = some v := h
    injection h2

theorem dictGet_isSome_of_mem (m : PyDict) (k : String) (h : k ∈ dictKeys m) :
    ∃ v, dictGet m k = some v := by
  induction m with
  | nil => simp [dictKeys] at h
  | cons p rest ih =>
    rw [dictGet_cons]
    by_cases hp : p.1 = k
    · exact ⟨p.2, if_pos hp⟩
    · rw [if_neg hp]
      apply ih
      simp only [dictKeys, List.map_cons, List.mem_cons] at h
      rcases h with h | h
      · exact absurd h.symm hp
      · exact h

theorem renderListItems_length (ind : Nat) (l : List PyJson) :
    (renderListItems ind l).length = l.length := by
  induction l with
  | nil => rfl
  | cons x xs ih => simp only [renderListItems, List.length_cons, ih]

theorem joinRendered_head (x : List Char) (ls : List (List Char)) :
    ∃ Z, joinRendered 2 (x :: ls) = spacesN 2 ++ (x ++ Z) := by
  cases ls with
  | nil => exact ⟨[], by simp [joinRendered]⟩
  | cons y ys =>
    exact ⟨',' :: '\n' :: joinRendered 2 (y :: ys),
      by simp [joinRendered, List.append_assoc]⟩

theorem pyJsonParse_rows (rows : List (String × ℚ))
    (hne : rows ≠ [])
    (hgood : ∀ p ∈ rows,
      (∀ c ∈ p.1.data, strSafeChar c = true) ∧ isDecimalB p.2 = true) :
    pyJsonParse (String.mk (renderJson 0 (.arr (rows.map
        (fun p => PyJson.obj [("date", .str p.1), ("close", .num p.2)]))) ++ ['\n']))
      = some (.arr (rows.map
          (fun p => PyJson.obj [("close", .num p.2), ("date", .str p.1)]))) := by
  obtain ⟨r, rs, hrs⟩ : ∃ r rs, rows = r :: rs := by
    cases rows with
    | nil => exact absurd rfl hne
    | cons a l => exact ⟨a, l, rfl⟩
  have hL : renderJson 0 (.arr (rows.map
        (fun p => PyJson.obj [("date", .str p.1), ("close", .num p.2)]))) ++ ['\n']
      = '[' :: ('\n' :: (joinRendered 2 (renderListItems 2 (rows.map
          (fun p => PyJson.obj [("date", .str p.1), ("close", .num p.2)])))
        ++ ('\n' :: ']' :: ['\n']))) := by
    rw [hrs]
    simp only [List.map_cons, renderJson, renderListItems]
    simp [spacesN, List.append_assoc, List.cons_append]
  obtain ⟨Z, hZ⟩ : ∃ Z, joinRendered 2 (renderListItems 2 (rows.map
        (fun p => PyJson.obj [("date", .str p.1), ("close", .num p.2)])))
      = spacesN 2 ++
        (renderJson 2 (.obj [("date", .str r.1), ("close", .num r.2)]) ++ Z) := by
    rw [hrs]
    simp only [List.map_cons, renderListItems]
    exact joinRendered_head _ _
  have hskip2 : skipWs ('\n' :: (joinRendered 2 (renderListItems 2 (rows.map
        (fun p => PyJson.obj [("date", .str p.1), ("close", .num p.2)])))
      ++ ('\n' :: ']' :: ['\n'])))
      = '{' :: rowTailB r.1 r.2 (Z ++ ('\n' :: ']' :: ['\n'])) := by
    rw [hZ]
    rw [show ('\n' :: ((spacesN 2 ++
          (renderJson 2 (.obj [("date", .str r.1), ("close", .num r.2)]) ++ Z))
        ++ ('\n' :: ']' :: ['\n'])))
        = (('\n' :: spacesN 2) ++
          (renderJson 2 (.obj [("date", .str r.1), ("close", .num r.2)]) ++
            (Z ++ ('\n' :: ']' :: ['\n'])))) from by
      simp [List.append_assoc, List.cons_append]]
    rw [renderRow_cons]
    rw [skipWs_append_ws _ _ (by decide)]
    exact skipWs_not_ws _ _ (by decide)
  have hfuel : (renderJson 0 (.arr (rows.map
        (fun p => PyJson.obj [("date", .str p.1), ("close", .num p.2)]))) ++ ['\n']).length + 4
      = ((joinRendered 2 (renderListItems 2 (rows.map
          (fun p => PyJson.obj [("date", .str p.1), ("close", .num p.2)])))).length + 8) + 1 := by
    rw [hL]
    simp only [List.length_cons, List.length_append, List.length_nil]
  have hflen : 5 * rows.length ≤ (joinRendered 2 (renderListItems 2 (rows.map
      (fun p => PyJson.obj [("date", .str p.1), ("close", .num p.2)])))).length + 8 := by
    have h1 := joinRendered_len (renderListItems 2 (rows.map
      (fun p => PyJson.obj [("date", .str p.1), ("close", .num p.2)])))
      (renderListItems_rows_len rows)
    rw [renderListItems_length, List.length_map] at h1
    omega
  have hparse : parseVal ((renderJson 0 (.arr (rows.map
        (fun p => PyJson.obj [("date", .str p.1), ("close", .num p.2)]))) ++ ['\n']).length + 4)
      (renderJson 0 (.arr (rows.map
        (fun p => PyJson.obj [("date", .str p.1), ("close", .num p.2)]))) ++ ['\n'])
      = some (.arr (rows.map
          (fun p => PyJson.obj [("close", .num p.2), ("date", .str p.1)])), ['\n']) := by
    rw [hfuel, hL]
    rw [parseVal_cons_arr _ _ _ hskip2]
    have hrec := parseItems_rows rows ((joinRendered 2 (renderListItems 2 (rows.map
        (fun p => PyJson.obj [("date", .str p.1), ("close", .num p.2)])))).length + 8)
      [] ['\n'] ['\n'] hne hgood (by decide) hflen
    rw [show ('\n' :: (joinRendered 2 (renderListItems 2 (rows.map
          (fun p => PyJson.obj [("date", .str p.1), ("close", .num p.2)])))
        ++ ('\n' :: ']' :: ['\n'])))
        = ['\n'] ++ (joinRendered 2 (renderListItems 2 (rows.map
            (fun p => PyJson.obj [("date", .str p.1), ("close", .num p.2)])))
          ++ ('\n' :: ']' :: ['\n'])) from rfl]
    rw [hrec]
    simp
  show pyJsonParse (String.mk (renderJson 0 (.arr (rows.map
      (fun p => PyJson.obj [("date", .str p.1), ("close", .num p.2)]))) ++ ['\n'])) = _
  unfold pyJsonParse
  rw [show (String.mk (renderJson 0 (.arr (rows.map
      (fun p => PyJson.obj [("date", .str p.1), ("close", .num p.2)]))) ++ ['\n'])).data
      = renderJson 0 (.arr (rows.map
          (fun p => PyJson.obj [("date", .str p.1), ("close", .num p.2)]))) ++ ['\n'] from rfl]
  rw [hparse]
  simp [skipWs]
  decide

theorem pyJsonParse_prices (m : PyDict)
    (hne : dictKeys m ≠ [])
    (hsafe : ∀ d ∈ dictKeys m, ∀ c ∈ d.data, strSafeChar c = true)
    (hdec : ∀ p ∈ m, isDecimalB p.2 = true) :
    pyJsonParse (serializePrices m)
      = some (.arr (((sortLe (fun a b => keyLe b a) (dictKeys m)).map
          (fun d => (d, (dictGet m d).getD 0))).map
          (fun p => PyJson.obj [("close", .num p.2), ("date", .str p.1)]))) := by
  have hrne : (sortLe (fun a b => keyLe b a) (dictKeys m)).map
      (fun d => (d, (dictGet m d).getD 0)) ≠ [] := by
    cases h : sortLe (fun a b => keyLe b a) (dictKeys m) with
    | nil =>
      have hp := sortLe_perm (fun a b => keyLe b a) (dictKeys m)
      rw [h] at hp
      exact absurd hp.symm.eq_nil hne
    | cons a l => simp
  have hrgood : ∀ p ∈ (sortLe (fun a b => keyLe b a) (dictKeys m)).map
      (fun d => (d, (dictGet m d).getD 0)),
      (∀ c ∈ p.1.data, strSafeChar c = true) ∧ isDecimalB p.2 = true := by
    intro p hp
    rw [List.mem_map] at hp
    obtain ⟨d, hd, hpd⟩ := hp
    have hdm : d ∈ dictKeys m :=
      (sortLe_perm (fun a b => keyLe b a) (dictKeys m)).mem_iff.mp hd
    obtain ⟨v, hv⟩ := dictGet_isSome_of_mem m d hdm
    obtain ⟨pp, hppm, hppv⟩ := dictGet_some_mem m d v hv
    constructor
    · rw [← hpd]
      exact hsafe d hdm
    · rw [← hpd]
      show isDecimalB ((dictGet m d).getD 0) = true
      rw [hv]
      show isDecimalB v = true
      rw [← hppv]
      exact hdec pp hppm
  have hjson : pricesToJson m
      = .arr (((sortLe (fun a b => keyLe b a) (dictKeys m)).map
          (fun d => (d, (dictGet m d).getD 0))).map
          (fun p => PyJson.obj [("date", .str p.1), ("close", .num p.2)])) := by
    unfold pricesToJson
    rw [List.map_map]
    rfl
  have hser : serializePrices m
      = String.mk (renderJson 0 (.arr (((sortLe (fun a b => keyLe b a) (dictKeys m)).map
          (fun d => (d, (dictGet m d).getD 0))).map
          (fun p => PyJson.obj [("date", .str p.1), ("close", .num p.2)]))) ++ ['\n']) := by
    unfold serializePrices jsonDumpsCanonical
    rw [hjson]
  rw [hser]
  exact pyJsonParse_rows _ hrne hrgood

theorem strSafeChar_of_digit (c : Char) (h : isDigitChar c = true) :
    strSafeChar c = true := by
  obtain ⟨hlo, hhi⟩ := digit_bounds c h
  unfold strSafeChar
  rw [Bool.and_eq_true, Bool.and_eq_true]
  refine ⟨⟨?_, ?_⟩, ?_⟩
  · rw [Bool.not_eq_eq_eq_not, Bool.not_true, decide_eq_false_iff_not]
    omega
  · rw [bne_iff_ne]
    omega
  · rw [bne_iff_ne]
    omega

theorem parseDateISO_safe (d : String) (h : (parseDateISO d).isSome = true) :
    ∀ c ∈ d.data, strSafeChar c = true := by
  intro c hc
  unfold parseDateISO at h
  split at h
  case _ y1 y2 y3 y4 m1 d1 heq =>
    split at h
    case _ hcond =>
      simp only [Bool.and_eq_true] at hcond
      obtain ⟨⟨⟨⟨⟨h1, h2⟩, h3⟩, h4⟩, h5⟩, h6⟩ := hcond
      rw [heq] at hc
      simp only [List.mem_cons, List.not_mem_nil, or_false] at hc
      rcases hc with rfl | rfl | rfl | rfl | rfl | rfl | rfl | rfl
      · exact strSafeChar_of_digit _ h1
      · exact strSafeChar_of_digit _ h2
      · exact strSafeChar_of_digit _ h3
      · exact strSafeChar_of_digit _ h4
      · decide
      · exact strSafeChar_of_digit _ h5
      · decide
      · exact strSafeChar_of_digit _ h6
    case _ => simp at h
  case _ y1 y2 y3 y4 m1 d1 d2 heq =>
    split at h
    case _ hcond =>
      simp only [Bool.and_eq_true] at hcond
      obtain ⟨⟨⟨⟨⟨⟨h1, h2⟩, h3⟩, h4⟩, h5⟩, h6⟩, h7⟩ := hcond
      rw [heq] at hc
      simp only [List.mem_cons, List.not_mem_nil, or_false] at hc
      rcases hc with rfl | rfl | rfl | rfl | rfl | rfl | rfl | rfl | rfl
      · exact strSafeChar_of_digit _ h1
      · exact strSafeChar_of_digit _ h2
      · exact strSafeChar_of_digit _ h3
      · exact strSafeChar_of_digit _ h4
      · decide
      · exact strSafeChar_of_digit _ h5
      · decide
      · exact strSafeChar_of_digit _ h6
      · exact strSafeChar_of_digit _ h7
    case _ => simp at h
  case _ y1 y2 y3 y4 m1 m2 d1 heq =>
    split at h
    case _ hcond =>
      simp only [Bool.and_eq_true] at hcond
      obtain ⟨⟨⟨⟨⟨⟨h1, h2⟩, h3⟩, h4⟩, h5⟩, h6⟩, h7⟩ := hcond
      rw [heq] at hc
      simp only [List.mem_cons, List.not_mem_nil, or_false] at hc
      rcases hc with rfl | rfl | rfl | rfl | rfl | rfl | rfl | rfl | rfl
      · exact strSafeChar_of_digit _ h1
      · exact strSafeChar_of_digit _ h2
      · exact strSafeChar_of_digit _ h3
      · exact strSafeChar_of_digit _ h4
      · decide
      · exact strSafeChar_of_digit _ h5
      · exact strSafeChar_of_digit _ h6
      · decide
      · exact strSafeChar_of_digit _ h7
    case _ => simp at h
  case _ y1 y2 y3 y4 m1 m2 d1 d2 heq =>
    split at h
    case _ hcond =>
      simp only [Bool.and_eq_true] at hcond
      obtain ⟨⟨⟨⟨⟨⟨⟨h1, h2⟩, h3⟩, h4⟩, h5⟩, h6⟩, h7⟩, h8⟩ := hcond
      rw [heq] at hc
      simp only [List.mem_cons, List.not_mem_nil, or_false] at hc
      rcases hc with rfl | rfl | rfl | rfl | rfl | rfl | rfl | rfl | rfl | rfl
      · exact strSafeChar_of_digit _ h1
      · exact strSafeChar_of_digit _ h2
      · exact strSafeChar_of_digit _ h3
      · exact strSafeChar_of_digit _ h4
      · decide
      · exact strSafeChar_of_digit _ h5
      · exact strSafeChar_of_digit _ h6
      · decide
      · exact strSafeChar_of_digit _ h7
      · exact strSafeChar_of_digit _ h8
    case _ => simp at h
  case _ => simp at h

theorem extractRows_map (rows : List (String × ℚ)) :
    ∀ acc, extractRows (rows.map
      (fun p => PyJson.obj [("close", .num p.2), ("date", .str p.1)])) acc
      = applyObs acc rows := by
  induction rows with
  | nil => intro acc; rfl
  | cons r rs ih =>
    intro acc
    show extractRows (PyJson.obj [("close", .num r.2), ("date", .str r.1)] ::
        rs.map (fun p => PyJson.obj [("close", .num p.2), ("date", .str p.1)])) acc
      = applyObs acc (r :: rs)
    rw [show extractRows (PyJson.obj [("close", .num r.2), ("date", .str r.1)] ::
        rs.map (fun p => PyJson.obj [("close", .num p.2), ("date", .str p.1)])) acc
      = extractRows (rs.map
          (fun p => PyJson.obj [("close", .num p.2), ("date", .str p.1)]))
          (dictSet acc r.1 r.2) from rfl]
    rw [ih]
    rfl

theorem lastVal_keys (m : PyDict) (ks : List String) (k : String) :
    lastVal (ks.map (fun d => (d, (dictGet m d).getD 0))) k
      = if k ∈ ks then some ((dictGet m k).getD 0) else none := by
  induction ks with
  | nil => simp [lastVal]
  | cons a l ih =>
    rw [List.map_cons]
    rw [show lastVal ((a, (dictGet m a).getD 0) ::
        l.map (fun d => (d, (dictGet m d).getD 0))) k
      = match lastVal (l.map (fun d => (d, (dictGet m d).getD 0))) k with
        | some v => some v
        | none => if a = k then some ((dictGet m a).getD 0) else none from rfl]
    rw [ih]
    by_cases hmem : k ∈ l
    · rw [if_pos hmem, if_pos (List.mem_cons_of_mem a hmem)]
    · rw [if_neg hmem]
      by_cases ha : a = k
      · rw [if_pos ha, ha, if_pos (List.mem_cons_self k l)]
      · rw [if_neg ha, if_neg (by
          intro hck
          rcases List.mem_cons.mp hck with h1 | h1
          · exact ha h1.symm
          · exact hmem h1)]

/-- C4: canonical round-trip for price series. For every price map whose
keys are date strings accepted by strptime("%Y-%m-%d") and whose values are
decimal rationals (the exact values the canonical float rendering writes
back verbatim), reading the file produced by write_prices_json_if_changed
with read_prices_json returns a dict equal to the original map. -/
theorem prices_roundtrip (old : Option String) (m : PyDict)
    (hdates : ∀ d ∈ dictKeys m, (parseDateISO d).isSome = true)
    (hdec : ∀ p ∈ m, isDecimalB p.2 = true) :
    dictEq (read_prices_json (some ((write_prices_json_if_changed old m).2))) m := by
  have hsnd : (write_prices_json_if_changed old m).2 = serializePrices m := by
    simp only [write_prices_json_if_changed]
    split <;> rfl
  rw [hsnd]
  by_cases hkeys : dictKeys m = []
  · have hm : m = [] := by
      cases m with
      | nil => rfl
      | cons p rest => simp [dictKeys] at hkeys
    rw [hm]
    have hempty : read_prices_json (some (serializePrices [])) = [] := by rfl
    rw [hempty]
    intro k
    rfl
  · have hsafe : ∀ d ∈ dictKeys m, ∀ c ∈ d.data, strSafeChar c = true :=
      fun d hd => parseDateISO_safe d (hdates d hd)
    have hp := pyJsonParse_prices m hkeys hsafe hdec
    have hread : read_prices_json (some (serializePrices m))
        = applyObs [] ((sortLe (fun a b => keyLe b a) (dictKeys m)).map
            (fun d => (d, (dictGet m d).getD 0))) := by
      simp only [read_prices_json]
      rw [hp]
      show extractPrices (.arr (((sortLe (fun a b => keyLe b a) (dictKeys m)).map
          (fun d => (d, (dictGet m d).getD 0))).map
          (fun p => PyJson.obj [("close", .num p.2), ("date", .str p.1)]))) = _
      rw [show extractPrices (.arr (((sortLe (fun a b => keyLe b a) (dictKeys m)).map
            (fun d => (d, (dictGet m d).getD 0))).map
            (fun p => PyJson.obj [("close", .num p.2), ("date", .str p.1)])))
          = extractRows (((sortLe (fun a b => keyLe b a) (dictKeys m)).map
              (fun d => (d, (dictGet m d).getD 0))).map
              (fun p => PyJson.obj [("close", .num p.2), ("date", .str p.1)])) []
          from rfl]
      exact extractRows_map _ []
    rw [hread]
    intro k
    rw [dictGet_applyObs, lastVal_keys]
    by_cases hk : k ∈ sortLe (fun a b => keyLe b a) (dictKeys m)
    · rw [if_pos hk]
      have hkm : k ∈ dictKeys m :=
        (sortLe_perm (fun a b => keyLe b a) (dictKeys m)).mem_iff.mp hk
      obtain ⟨v, hv⟩ := dictGet_isSome_of_mem m k hkm
      show some ((dictGet m k).getD 0) = dictGet m k
      rw [hv]
      rfl
    · rw [if_neg hk]
      have hkm : k ∉ dictKeys m :=
        fun hh => hk ((sortLe_perm (fun a b => keyLe b a) (dictKeys m)).mem_iff.mpr hh)
      show dictGet ([] : PyDict) k = dictGet m k
      rw [dictGet_eq_none_of_not_mem m k hkm]
      rfl

/-- Witness for C4 at a concrete two-row series. -/
theorem prices_roundtrip_witness :
    (∀ d ∈ dictKeys [("2024-01-02", (10 : ℚ)), ("2024-01-01", 11)],
      (parseDateISO d).isSome = true)
    ∧ (∀ p ∈ ([("2024-01-02", (10 : ℚ)), ("2024-01-01", 11)] : PyDict),
      isDecimalB p.2 = true)
    ∧ dictEq (read_prices_json (some ((write_prices_json_if_changed none
        [("2024-01-02", (10 : ℚ)), ("2024-01-01", 11)]).2)))
        [("2024-01-02", (10 : ℚ)), ("2024-01-01", 11)] :=
  ⟨by decide, by decide,
    prices_roundtrip none [("2024-01-02", (10 : ℚ)), ("2024-01-01", 11)]
      (by decide) (by decide)⟩

/-- C10 (amended): totality of price-series loading. read_prices_json never
raises: an absent file or unparseable contents give the empty dict; a parsed
object row reduces to looking up "date" and "close" and applying float();
a row skipped that way leaves its siblings intact; a boolean close is kept
(bool is a subclass of int in Python) with value 1.0 or 0.0; a non-dict row
aborts the loop and the whole read degrades to the empty dict. -/
theorem read_prices_total_spec :
    read_prices_json none = []
    ∧ (∀ s, pyJsonParse s = none → read_prices_json (some s) = [])
    ∧ (∀ entries, extractRow (.obj entries)
        = some (match jsonObjGet entries "date", jsonObjGet entries "close" with
            | some (.str d), some c => (pyFloatOfJson c).map (fun q => (d, q))
            | _, _ => none))
    ∧ (∀ j items acc, extractRow j = some none →
        extractRows (j :: items) acc = extractRows items acc)
    ∧ (∀ b, pyFloatOfJson (.bool b) = some (if b then 1 else 0))
    ∧ (∀ j items acc, extractRow j = none → extractRows (j :: items) acc = []) := by
  refine ⟨rfl, ?_, ?_, ?_, ?_, ?_⟩
  · intro s h
    simp only [read_prices_json]
    rw [h]
  · intro entries
    rcases h1 : jsonObjGet entries "date" with _ | v
    · simp [extractRow, h1]
    · cases v with
      | str d =>
        rcases h2 : jsonObjGet entries "close" with _ | w
        · simp [extractRow, h1, h2]
        · rcases h3 : pyFloatOfJson w with _ | q <;>
            simp [extractRow, h1, h2, h3]
      | null => simp [extractRow, h1]
      | bool b => simp [extractRow, h1]
      | num q => simp [extractRow, h1]
      | arr l => simp [extractRow, h1]
      | obj l => simp [extractRow, h1]
  · intro j items acc h
    simp only [extractRows]
    rw [h]
  · intro b
    rfl
  · intro j items acc h
    simp only [extractRows]
    rw [h]

/-- Witness for the amended C10 statement: concrete garbage contents give
the empty dict, and a concrete row with a non-string date is skipped with
its sibling kept. -/
theorem read_prices_total_spec_witness :
    read_prices_json (some "zzz") = []
    ∧ extractRows [PyJson.obj [("date", .num 5)],
        PyJson.obj [("date", .str "2024-01-01"), ("close", .num 2)]] []
      = extractRows [PyJson.obj [("date", .str "2024-01-01"), ("close", .num 2)]] [] :=
  ⟨read_prices_total_spec.2.1 "zzz" rfl,
   read_prices_total_spec.2.2.2.1 (PyJson.obj [("date", .num 5)])
     [PyJson.obj [("date", .str "2024-01-01"), ("close", .num 2)]] [] (by decide)⟩

theorem fileDeleted_iff (active : List String) (stem : String) :
    fileDeleted active stem = true ↔
      (pyStrip stem ≠ "" ∧ pyStrip stem ∉ active) := by
  unfold fileDeleted
  rw [Bool.and_eq_true, bne_iff_ne, Bool.not_eq_true']
  constructor
  · rintro ⟨h1, h2⟩
    refine ⟨h1, fun hmem => ?_⟩
    have : active.contains (pyStrip stem) = true := by simpa using hmem
    rw [this] at h2
    exact absurd h2 (by decide)
  · rintro ⟨h1, h2⟩
    refine ⟨h1, ?_⟩
    by_cases hc : active.contains (pyStrip stem) = true
    · exact absurd (by simpa using hc) h2
    · exact Bool.not_eq_true _ ▸ hc

/-- C6: garbage collection of removed instruments. Identifying a price
file's instrument id with its stripped stem (the code's p.stem.strip()), a
run of cleanup_removed_funds keeps a price file exactly when its id is
configured (files whose stem strips to nothing are junk the code leaves
alone), keeps a metadata funds entry exactly when its key is configured, and
returns true exactly when some file or entry was deleted. -/
theorem cleanup_removed_funds_spec (active : List String) (st : StoreState) :
    (∀ p, p ∈ (cleanup_removed_funds active st).2.priceFiles ↔
      (p ∈ st.priceFiles ∧ (pyStrip p.1 = "" ∨ pyStrip p.1 ∈ active)))
    ∧ (∀ e, e ∈ (cleanup_removed_funds active st).2.fundsMeta ↔
      (e ∈ st.fundsMeta ∧ e.1 ∈ active))
    ∧ ((cleanup_removed_funds active st).1 = true ↔
      ((∃ p ∈ st.priceFiles, pyStrip p.1 ≠ "" ∧ pyStrip p.1 ∉ active)
        ∨ (∃ e ∈ st.fundsMeta, e.1 ∉ active))) := by
  refine ⟨?_, ?_, ?_⟩
  · intro p
    show p ∈ st.priceFiles.filter (fun q => !fileDeleted active q.1) ↔ _
    rw [List.mem_filter]
    constructor
    · rintro ⟨hm, hb⟩
      refine ⟨hm, ?_⟩
      rw [Bool.not_eq_true'] at hb
      by_cases h1 : pyStrip p.1 = ""
      · exact Or.inl h1
      · right
        by_contra h2
        rw [(fileDeleted_iff active p.1).mpr ⟨h1, h2⟩] at hb
        exact absurd hb (by decide)
    · rintro ⟨hm, hor⟩
      refine ⟨hm, ?_⟩
      rw [Bool.not_eq_true']
      by_cases hd : fileDeleted active p.1 = true
      · obtain ⟨h1, h2⟩ := (fileDeleted_iff active p.1).mp hd
        rcases hor with hor | hor
        · exact absurd hor h1
        · exact absurd hor h2
      · exact Bool.not_eq_true _ ▸ hd
  · intro e
    show e ∈ st.fundsMeta.filter (fun x => active.contains x.1) ↔ _
    rw [List.mem_filter]
    constructor
    · rintro ⟨hm, hb⟩
      exact ⟨hm, by simpa using hb⟩
    · rintro ⟨hm, hb⟩
      exact ⟨hm, by simpa using hb⟩
  · show (st.priceFiles.any (fun p => fileDeleted active p.1)
        || st.fundsMeta.any (fun e => !(active.contains e.1))) = true ↔ _
    rw [Bool.or_eq_true, List.any_eq_true, List.any_eq_true]
    constructor
    · rintro (⟨p, hm, hb⟩ | ⟨e, hm, hb⟩)
      · exact Or.inl ⟨p, hm, (fileDeleted_iff active p.1).mp hb⟩
      · refine Or.inr ⟨e, hm, fun hmem => ?_⟩
        rw [Bool.not_eq_true'] at hb
        rw [show active.contains e.1 = true from by simpa using hmem] at hb
        exact absurd hb (by decide)
    · rintro (⟨p, hm, h12⟩ | ⟨e, hm, h2⟩)
      · exact Or.inl ⟨p, hm, (fileDeleted_iff active p.1).mpr h12⟩
      · refine Or.inr ⟨e, hm, ?_⟩
        rw [Bool.not_eq_true']
        by_cases hc : active.contains e.1 = true
        · exact absurd (by simpa using hc) h2
        · exact Bool.not_eq_true _ ▸ hc

/-- Witness for C6: with only ES1 configured, a store holding a price file
and a metadata entry for ES2 is reported changed. -/
theorem cleanup_removed_funds_spec_witness :
    (cleanup_removed_funds ["ES1"] ⟨[("ES2", "x")], [("ES2", PyJson.null)]⟩).1
      = true :=
  (cleanup_removed_funds_spec ["ES1"]
      ⟨[("ES2", "x")], [("ES2", PyJson.null)]⟩).2.2.mpr
    (Or.inl ⟨("ES2", "x"), by decide, by decide, by decide⟩)

